import Mathlib

/-!
Verification of the invoice-categorization pipeline.

The Python source is embedded shallowly:
* a Python string is a `List Nat` of Unicode code points;
* a pandas dataframe is a `List` of row structures (positional order =
  dataframe order; explicit `label` fields model index labels);
* fallible code returns `Except`;
* the LLM service and thread-completion order are explicit parameters.
-/

namespace Invoice

/-! ## Text normalization (`DataProcessor.clean_text`) -/

/-- Code of a lowercase ASCII letter, the class `[a-z]` of the regex. -/
def isLowerAlpha (c : Nat) : Bool := 97 ≤ c && c ≤ 122

/-- Whitespace as matched by the regex class `\s` (ASCII part:
space, tab, newline, vertical tab, form feed, carriage return). -/
def isWs (c : Nat) : Bool :=
  c = 32 || c = 9 || c = 10 || c = 11 || c = 12 || c = 13

/-- Python `str.lower` on a code point (ASCII range; `clean_text`
erases every non-ASCII-letter character right afterwards, so the
ASCII mapping is the part that reaches the output). -/
def pyLower (c : Nat) : Nat := if 65 ≤ c ∧ c ≤ 90 then c + 32 else c

/-- Step `re.sub(r'[^a-z\s]', ' ', text)`: every character that is neither
a lowercase letter nor whitespace becomes a space. -/
def subNonAlpha (c : Nat) : Nat := if isLowerAlpha c || isWs c then c else 32

/-- Step `re.sub(r'\s+', ' ', text)`: collapse every maximal run of
whitespace to a single space.  The boolean records whether the
previous character was whitespace. -/
def collapseWsAux : Bool → List Nat → List Nat
  | _, [] => []
  | prevWs, c :: cs =>
    if isWs c then
      if prevWs then collapseWsAux true cs else 32 :: collapseWsAux true cs
    else c :: collapseWsAux false cs

def collapseWs (s : List Nat) : List Nat := collapseWsAux false s

/-- Python `str.strip`: drop leading and trailing whitespace. -/
def strip (s : List Nat) : List Nat :=
  ((s.dropWhile (fun c => isWs c)).reverse.dropWhile (fun c => isWs c)).reverse

/-- The source's `DataProcessor.clean_text`: lowercase, replace every
character outside `[a-z\s]` with a space, collapse whitespace runs,
strip. -/
def clean_text (s : List Nat) : List Nat :=
  strip (collapseWs ((s.map pyLower).map subNonAlpha))

/-! Facts about the shape of `clean_text` output, leading to idempotence. -/

lemma collapseWsAux_mem_of (P : Nat → Prop) (h32 : P 32) :
    ∀ (b : Bool) (l : List Nat), (∀ c ∈ l, P c) →
      ∀ c ∈ collapseWsAux b l, P c := by
  intro b l
  induction l generalizing b with
  | nil => intro _ c hc; cases hc
  | cons a t ih =>
    intro hl c hc
    have hta : ∀ x ∈ t, P x := fun x hx => hl x (List.mem_cons_of_mem _ hx)
    unfold collapseWsAux at hc
    by_cases ha : isWs a
    · rw [if_pos ha] at hc
      cases b with
      | true => exact ih true hta c hc
      | false =>
        rcases List.mem_cons.mp hc with h | h
        · subst h; exact h32
        · exact ih true hta c h
    · rw [if_neg ha] at hc
      rcases List.mem_cons.mp hc with h | h
      · rw [h]; exact hl a (List.mem_cons_self a t)
      · exact ih false hta c h

lemma subNonAlpha_shape (c : Nat) :
    isLowerAlpha (subNonAlpha c) = true ∨ isWs (subNonAlpha c) = true := by
  unfold subNonAlpha
  by_cases h : isLowerAlpha c || isWs c
  · simp only [h, if_true]
    rcases Bool.or_eq_true_iff.mp h with h1 | h1
    · exact Or.inl h1
    · exact Or.inr h1
  · simp only [h, if_false]
    right; rfl

/-- Inside `collapseWsAux` output, any whitespace character is a space. -/
lemma collapseWsAux_ws_eq_space :
    ∀ (b : Bool) (l : List Nat), ∀ x ∈ collapseWsAux b l,
      isWs x = true → x = 32 := by
  intro b l
  induction l generalizing b with
  | nil => intro x hx; cases hx
  | cons a t ih =>
    intro x hx hxw
    unfold collapseWsAux at hx
    by_cases ha : isWs a
    · rw [if_pos ha] at hx
      cases b with
      | true => exact ih true x hx hxw
      | false =>
        rcases List.mem_cons.mp hx with h1 | h1
        · exact h1
        · exact ih true x h1 hxw
    · rw [if_neg ha] at hx
      rcases List.mem_cons.mp hx with h1 | h1
      · subst h1; rw [hxw] at ha; cases ha rfl
      · exact ih false x h1 hxw

lemma mem_of_mem_strip {c : Nat} {l : List Nat} (h : c ∈ strip l) : c ∈ l := by
  unfold strip at h
  have h1 := List.mem_reverse.mp h
  have h2 : c ∈ (l.dropWhile (fun c => isWs c)).reverse :=
    (List.dropWhile_sublist _).mem h1
  exact (List.dropWhile_sublist _).mem (List.mem_reverse.mp h2)

/-- Every character of `clean_text s` is a lowercase letter or a space. -/
lemma clean_text_chars (s : List Nat) :
    ∀ c ∈ clean_text s, isLowerAlpha c = true ∨ c = 32 := by
  intro c hc
  unfold clean_text at hc
  have hc2 : c ∈ collapseWs ((s.map pyLower).map subNonAlpha) :=
    mem_of_mem_strip hc
  unfold collapseWs at hc2
  have key : ∀ x ∈ (s.map pyLower).map subNonAlpha,
      isLowerAlpha x = true ∨ isWs x = true := by
    intro x hx
    rcases List.mem_map.mp hx with ⟨y, _, rfl⟩
    exact subNonAlpha_shape y
  have := collapseWsAux_mem_of (fun x => isLowerAlpha x = true ∨ isWs x = true)
    (Or.inr rfl) false _ key c hc2
  rcases this with h | h
  · exact Or.inl h
  · right
    -- the only whitespace `collapseWsAux` emits is a space
    -- (characters kept unchanged are non-whitespace)
    exact collapseWsAux_ws_eq_space false _ c hc2 h

/-- No two adjacent whitespace characters. -/
def NoAdjWs (l : List Nat) : Prop :=
  List.Chain' (fun a b => isWs a = false ∨ isWs b = false) l

lemma isLowerAlpha_iff {c : Nat} : isLowerAlpha c = true ↔ 97 ≤ c ∧ c ≤ 122 := by
  unfold isLowerAlpha
  rw [Bool.and_eq_true, decide_eq_true_iff, decide_eq_true_iff]

lemma isWs_of_isLowerAlpha {c : Nat} (h : isLowerAlpha c = true) :
    isWs c = false := by
  have hb := isLowerAlpha_iff.mp h
  unfold isWs
  simp only [Bool.or_eq_false_iff, decide_eq_false_iff_not]
  omega

lemma clean_text_ws_eq_space {s : List Nat} {c : Nat}
    (hc : c ∈ clean_text s) (hw : isWs c = true) : c = 32 := by
  rcases clean_text_chars s c hc with h | h
  · rw [isWs_of_isLowerAlpha h] at hw; cases hw
  · exact h

lemma head?_collapseWsAux_true (l : List Nat) :
    ∀ x, (collapseWsAux true l).head? = some x → isWs x = false := by
  induction l with
  | nil => intro x hx; cases hx
  | cons a t ih =>
    intro x hx
    unfold collapseWsAux at hx
    by_cases ha : isWs a
    · rw [if_pos ha] at hx; exact ih x hx
    · rw [if_neg ha] at hx
      simp only [List.head?_cons, Option.some.injEq] at hx
      rw [← hx]
      exact Bool.eq_false_iff.mpr ha

lemma noAdjWs_collapseWsAux : ∀ (b : Bool) (l : List Nat),
    NoAdjWs (collapseWsAux b l) := by
  intro b l
  induction l generalizing b with
  | nil => exact List.chain'_nil
  | cons a t ih =>
    unfold collapseWsAux
    by_cases ha : isWs a
    · rw [if_pos ha]
      cases b with
      | true => exact ih true
      | false =>
        rcases h : collapseWsAux true t with _ | ⟨x, xs⟩
        · exact List.chain'_singleton _
        · refine List.chain'_cons.mpr ⟨?_, h ▸ ih true⟩
          right
          exact head?_collapseWsAux_true t x (by rw [h]; rfl)
    · rw [if_neg ha]
      rcases h : collapseWsAux false t with _ | ⟨x, xs⟩
      · exact List.chain'_singleton _
      · refine List.chain'_cons.mpr ⟨Or.inl (Bool.eq_false_iff.mpr ha), h ▸ ih false⟩

lemma noAdjWs_strip {l : List Nat} (h : NoAdjWs l) : NoAdjWs (strip l) := by
  unfold strip
  have h1 : NoAdjWs (l.dropWhile (fun c => isWs c)) :=
    h.suffix (List.dropWhile_suffix _)
  have h2 : NoAdjWs ((l.dropWhile (fun c => isWs c)).reverse) := by
    rw [NoAdjWs, List.chain'_reverse]
    exact h1.imp (fun a b hab => hab.symm)
  have h3 : NoAdjWs (((l.dropWhile (fun c => isWs c)).reverse).dropWhile
      (fun c => isWs c)) := h2.suffix (List.dropWhile_suffix _)
  rw [NoAdjWs, List.chain'_reverse]
  exact h3.imp (fun a b hab => hab.symm)

lemma noAdjWs_clean_text (s : List Nat) : NoAdjWs (clean_text s) :=
  noAdjWs_strip (noAdjWs_collapseWsAux false _)

/-- On a list whose head is not whitespace, the `true` and `false` states
of `collapseWsAux` agree. -/
lemma collapseWsAux_true_eq_false {l : List Nat}
    (h : ∀ x, l.head? = some x → isWs x = false) :
    collapseWsAux true l = collapseWsAux false l := by
  cases l with
  | nil => rfl
  | cons a t =>
    have ha : isWs a = false := h a rfl
    unfold collapseWsAux
    rw [if_neg (by rw [ha]; exact Bool.false_ne_true), if_neg (by rw [ha]; exact Bool.false_ne_true)]

/-- A canonical list (isolated single spaces as its only whitespace) is a
fixed point of whitespace collapsing. -/
lemma collapseWsAux_eq_self : ∀ (l : List Nat), NoAdjWs l →
    (∀ c ∈ l, isWs c = true → c = 32) → collapseWsAux false l = l := by
  intro l
  induction l with
  | nil => intro _ _; rfl
  | cons a t ih =>
    intro hadj hws
    have htadj : NoAdjWs t := hadj.tail
    have htws : ∀ c ∈ t, isWs c = true → c = 32 :=
      fun c hc => hws c (List.mem_cons_of_mem _ hc)
    unfold collapseWsAux
    by_cases ha : isWs a
    · rw [if_pos ha]
      have ha32 : a = 32 := hws a (List.mem_cons_self a t) ha
      have hhead : ∀ x, t.head? = some x → isWs x = false := by
        intro x hx
        cases t with
        | nil => cases hx
        | cons y ys =>
          simp only [List.head?_cons, Option.some.injEq] at hx
          rcases List.chain'_cons.mp hadj with ⟨hpair, _⟩
          rcases hpair with h1 | h1
          · rw [ha] at h1; cases h1
          · rw [← hx]; exact h1
      rw [collapseWsAux_true_eq_false hhead, ih htadj htws, ha32]
      simp
    · rw [if_neg ha, ih htadj htws]

lemma dropWhile_eq_self_of_head {p : Nat → Bool} {l : List Nat}
    (h : ∀ x, l.head? = some x → p x = false) : l.dropWhile p = l := by
  cases l with
  | nil => rfl
  | cons a t =>
    have := h a rfl
    rw [List.dropWhile_cons, this]
    simp

lemma head?_dropWhile_false (p : Nat → Bool) (l : List Nat) :
    ∀ x, (l.dropWhile p).head? = some x → p x = false := by
  induction l with
  | nil => intro x hx; cases hx
  | cons a t ih =>
    intro x hx
    rw [List.dropWhile_cons] at hx
    by_cases ha : p a
    · rw [if_pos ha] at hx; exact ih x hx
    · rw [if_neg ha] at hx
      simp only [List.head?_cons, Option.some.injEq] at hx
      rw [← hx]; exact Bool.eq_false_iff.mpr ha

lemma getLast?_suffix_eq {l m : List Nat} (h : l <:+ m) (hne : l ≠ []) :
    l.getLast? = m.getLast? := by
  rcases h with ⟨pre, rfl⟩
  rw [List.getLast?_append_of_ne_nil _ hne]

/-- The head of a stripped list is not whitespace. -/
lemma strip_head (u : List Nat) :
    ∀ x, (strip u).head? = some x → isWs x = false := by
  intro x hx
  unfold strip at hx
  rw [List.head?_reverse] at hx
  -- the last element of the trailing dropWhile is the last of the reversed
  -- leading dropWhile, i.e. the head of the leading dropWhile
  set A := u.dropWhile (fun c => isWs c) with hA
  set Z := A.reverse.dropWhile (fun c => isWs c) with hZ
  have hZne : Z ≠ [] := by
    intro hnil
    rw [hnil] at hx; cases hx
  have h1 : Z.getLast? = A.reverse.getLast? :=
    getLast?_suffix_eq (List.dropWhile_suffix _) hZne
  rw [h1, List.getLast?_reverse] at hx
  exact head?_dropWhile_false _ u x hx

/-- The last element of a stripped list is not whitespace. -/
lemma strip_getLast (u : List Nat) :
    ∀ x, (strip u).getLast? = some x → isWs x = false := by
  intro x hx
  unfold strip at hx
  rw [List.getLast?_reverse] at hx
  exact head?_dropWhile_false _ _ x hx

/-- A list with non-whitespace head and last is a fixed point of `strip`. -/
lemma strip_eq_self {l : List Nat}
    (hh : ∀ x, l.head? = some x → isWs x = false)
    (hl : ∀ x, l.getLast? = some x → isWs x = false) : strip l = l := by
  unfold strip
  rw [dropWhile_eq_self_of_head hh]
  have : ∀ x, l.reverse.head? = some x → isWs x = false := by
    intro x hx; rw [List.head?_reverse] at hx; exact hl x hx
  rw [dropWhile_eq_self_of_head this, List.reverse_reverse]

lemma pyLower_eq_self {c : Nat} (h : isLowerAlpha c = true ∨ c = 32) :
    pyLower c = c := by
  unfold pyLower
  rcases h with h | h
  · have h1 := isLowerAlpha_iff.mp h
    rw [if_neg (by omega)]
  · subst h; rw [if_neg (by omega)]

lemma subNonAlpha_eq_self {c : Nat} (h : isLowerAlpha c = true ∨ c = 32) :
    subNonAlpha c = c := by
  unfold subNonAlpha
  rcases h with h | h
  · rw [if_pos (by rw [h]; rfl)]
  · subst h
    rw [if_pos (by unfold isWs; simp)]

/-- Claim C8: text normalization is idempotent.  `clean_text` is a total
pure Lean function over code-point strings by construction (it is a plain
`def` with no failure path), so the totality part of the claim is inherent
in the embedding; this theorem settles the algebraic part:
`clean_text (clean_text x) = clean_text x` for every input string. -/
theorem claim_C8_clean_text_idempotent (s : List Nat) :
    clean_text (clean_text s) = clean_text s := by
  set t := clean_text s with ht
  have hchars : ∀ c ∈ t, isLowerAlpha c = true ∨ c = 32 := clean_text_chars s
  have h1 : t.map pyLower = t := by
    have : t.map pyLower = t.map id :=
      List.map_congr_left (fun a ha => pyLower_eq_self (hchars a ha))
    rw [this, List.map_id]
  have h2 : t.map subNonAlpha = t := by
    have : t.map subNonAlpha = t.map id :=
      List.map_congr_left (fun a ha => subNonAlpha_eq_self (hchars a ha))
    rw [this, List.map_id]
  have h3 : collapseWs t = t := by
    unfold collapseWs
    exact collapseWsAux_eq_self t (noAdjWs_clean_text s)
      (fun c hc hw => clean_text_ws_eq_space hc hw)
  have h4 : strip t = t := by
    refine strip_eq_self ?_ ?_
    · rw [ht]; exact strip_head _
    · rw [ht]; exact strip_getLast _
  show strip (collapseWs ((t.map pyLower).map subNonAlpha)) = t
  rw [h1, h2, h3, h4]

/-! ## Batch splitting (`DataProcessor.split_into_batches`) -/

/-- The source's `DataProcessor.split_into_batches`: the i-th batch is
`df.iloc[i*batch_size:(i+1)*batch_size]`, for `i` ranging over
`(n + batch_size - 1) // batch_size` values.  Rows are generic. -/
def split_into_batches {α : Type} (df : List α) (batch_size : Nat) : List (List α) :=
  (List.range ((df.length + batch_size - 1) / batch_size)).map
    (fun i => ((df.drop (i * batch_size)).take batch_size))

lemma join_chunks {α : Type} (bs : Nat) :
    ∀ (n : Nat) (l : List α), l.length ≤ n * bs →
      ((List.range n).map (fun i => ((l.drop (i * bs)).take bs))).flatten = l := by
  intro n
  induction n with
  | zero =>
    intro l hl
    simp only [Nat.zero_mul, Nat.le_zero, List.length_eq_zero] at hl
    subst hl; rfl
  | succ m ih =>
    intro l hl
    rw [List.range_succ_eq_map]
    simp only [List.map_cons, List.map_map, List.flatten_cons]
    have hhead : (l.drop (0 * bs)).take bs = l.take bs := by
      rw [Nat.zero_mul, List.drop_zero]
    rw [hhead]
    have hcong : (List.range m).map ((fun i => (l.drop (i * bs)).take bs) ∘
        Nat.succ) = (List.range m).map
        (fun i => (((l.drop bs).drop (i * bs)).take bs)) := by
      refine List.map_congr_left (fun i _ => ?_)
      simp only [Function.comp_apply]
      rw [List.drop_drop]
      congr 2
      rw [Nat.succ_mul]
      omega
    rw [hcong]
    have hlen : (l.drop bs).length ≤ m * bs := by
      rw [List.length_drop]
      have hms : (m + 1) * bs = m * bs + bs := by ring
      omega
    rw [ih (l.drop bs) hlen, List.take_append_drop]

/-- Claim C7: `split_into_batches` returns batches of size at most `N`
whose concatenation is the input, with exactly `ceil(n / N)` batches
(`(n + N - 1) / N` in natural division) and zero batches for empty input. -/
theorem claim_C7_split_into_batches {α : Type} (df : List α) (batch_size : Nat)
    (hbs : 0 < batch_size) :
    (∀ b ∈ split_into_batches df batch_size, b.length ≤ batch_size)
    ∧ (split_into_batches df batch_size).flatten = df
    ∧ (split_into_batches df batch_size).length
        = (df.length + batch_size - 1) / batch_size
    ∧ (df = [] → split_into_batches df batch_size = []) := by
  refine ⟨?_, ?_, ?_, ?_⟩
  · intro b hb
    unfold split_into_batches at hb
    rcases List.mem_map.mp hb with ⟨i, _, rfl⟩
    exact List.length_take_le _ _
  · unfold split_into_batches
    refine join_chunks batch_size _ df ?_
    set n := df.length with hn
    set q := (n + batch_size - 1) / batch_size with hq
    have hdm : batch_size * q + (n + batch_size - 1) % batch_size
        = n + batch_size - 1 := Nat.div_add_mod _ _
    have hmod : (n + batch_size - 1) % batch_size < batch_size :=
      Nat.mod_lt _ hbs
    have hc : batch_size * q = q * batch_size := Nat.mul_comm _ _
    omega
  · unfold split_into_batches
    rw [List.length_map, List.length_range]
  · intro h
    subst h
    unfold split_into_batches
    simp only [List.length_nil, Nat.zero_add]
    have hz : (batch_size - 1) / batch_size = 0 := Nat.div_eq_of_lt (by omega)
    rw [hz]
    rfl

/-- Witness for claim C7 at the concrete input `[1, 2, 3]` with batch
size 2. -/
theorem claim_C7_witness :
    (∀ b ∈ split_into_batches [1, 2, 3] 2, b.length ≤ 2)
    ∧ (split_into_batches [1, 2, 3] 2).flatten = [1, 2, 3]
    ∧ (split_into_batches [1, 2, 3] 2).length = (3 + 2 - 1) / 2
    ∧ (([1, 2, 3] : List Nat) = [] → split_into_batches [1, 2, 3] 2 = []) := by
  have h := claim_C7_split_into_batches [1, 2, 3] 2 (by decide)
  simpa using h

/-! ## Similarity (`DataProcessor.similar`, backed by
`difflib.SequenceMatcher(None, a, b).ratio()`)

The Ratcliff/Obershelp machinery of `difflib` is reproduced: the
position table `b2j` with the autojunk heuristic, the longest-match
dynamic scan, the non-junk extension loops (the junk set is empty since
`isjunk=None`), and the recursive matching-block split.  Recursions that
Python drives by a work queue are given explicit fuel; the fuel passed at
top level strictly exceeds the possible recursion depth, so it never runs
out. -/

/-- Positions (ascending) at which `x` occurs in `b`: `b2j` before junk
purging. -/
def positionsOf (b : List Nat) (x : Nat) : List Nat :=
  (List.range b.length).filter (fun j => b.getD j 0 = x)

/-- Number of occurrences of `x` in `b`. -/
def countIn (b : List Nat) (x : Nat) : Nat := (b.filter (fun y => y = x)).length

/-- Autojunk: an element is popular when `len(b) >= 200` and it occurs in
more than `len(b) // 100 + 1` positions; popular elements are removed
from `b2j`. -/
def isPopular (b : List Nat) (x : Nat) : Bool :=
  decide (200 ≤ b.length) && decide (b.length / 100 + 1 < countIn b x)

def b2j (b : List Nat) (x : Nat) : List Nat :=
  if isPopular b x then [] else positionsOf b x

/-- One row of the `find_longest_match` scan: iterate the positions of
`a[i]` in `b` (skipping `j < blo`, stopping at `j >= bhi`), building the
new run-length table and updating the best block.  `j2len` is the table
for the previous row; the value of an absent key is 0.  In Python the
lookup `j2len.get(j-1, 0)` with `j = 0` asks for key `-1`, which is never
present, hence the explicit `j = 0` guard. -/
def flmRow (j2len : Nat → Nat) (i : Nat) :
    List Nat → (Nat → Nat) → (Nat × Nat × Nat) → ((Nat → Nat) × (Nat × Nat × Nat))
  | [], newj2len, best => (newj2len, best)
  | j :: js, newj2len, best =>
    let k := (if j = 0 then 0 else j2len (j - 1)) + 1
    let newj2len2 : Nat → Nat := fun x => if x = j then k else newj2len x
    -- Python's i-k+1 and j-k+1; k ≤ i+1 and k ≤ j+1, written to avoid
    -- truncated subtraction
    let best2 := if best.2.2 < k then (i + 1 - k, j + 1 - k, k) else best
    flmRow j2len i js newj2len2 best2

/-- The row-by-row scan over `i` in `range(alo, ahi)`. -/
def flmScan (b : List Nat) (a : List Nat) (blo bhi : Nat) :
    List Nat → (Nat → Nat) → (Nat × Nat × Nat) → (Nat × Nat × Nat)
  | [], _, best => best
  | i :: is_, j2len, best =>
    let js := ((b2j b (a.getD i 0)).takeWhile (fun j => j < bhi)).filter
      (fun j => blo ≤ j)
    let step := flmRow j2len i js (fun _ => 0) best
    flmScan b a blo bhi is_ step.1 step.2

/-- Non-junk extension of the best block to the left (the junk set is
empty, so `not isbjunk(...)` always holds).  Fuel bounds the number of
steps; `besti` decreases each step, so fuel `besti` suffices. -/
def extendLeft (a b : List Nat) (alo blo : Nat) :
    Nat → Nat → Nat → Nat → (Nat × Nat × Nat)
  | 0, bi, bj, bsz => (bi, bj, bsz)
  | fuel + 1, bi, bj, bsz =>
    if alo < bi ∧ blo < bj ∧ a.getD (bi - 1) 0 = b.getD (bj - 1) 0 then
      extendLeft a b alo blo fuel (bi - 1) (bj - 1) (bsz + 1)
    else (bi, bj, bsz)

/-- Non-junk extension of the best block to the right. -/
def extendRight (a b : List Nat) (ahi bhi : Nat) (bi bj : Nat) :
    Nat → Nat → Nat
  | 0, bsz => bsz
  | fuel + 1, bsz =>
    if bi + bsz < ahi ∧ bj + bsz < bhi ∧ a.getD (bi + bsz) 0 = b.getD (bj + bsz) 0 then
      extendRight a b ahi bhi bi bj fuel (bsz + 1)
    else bsz

/-- The source's `find_longest_match(alo, ahi, blo, bhi)` for
`SequenceMatcher(None, a, b)`: returns `(besti, bestj, bestsize)`. -/
def find_longest_match (a b : List Nat) (alo ahi blo bhi : Nat) :
    Nat × Nat × Nat :=
  let best0 := flmScan b a blo bhi (List.range' alo (ahi - alo))
    (fun _ => 0) (alo, blo, 0)
  let best1 := extendLeft a b alo blo best0.1 best0.1 best0.2.1 best0.2.2
  let bsz := extendRight a b ahi bhi best1.1 best1.2.1 ahi best1.2.2
  (best1.1, best1.2.1, bsz)

/-- Total size of all matching blocks (the queue-driven recursive split of
`get_matching_blocks`; only the sum of block sizes is needed for the
ratio, and it does not depend on the queue order or on the final merge of
adjacent blocks). -/
def matchBlocksSum (a b : List Nat) : Nat → Nat → Nat → Nat → Nat → Nat
  | 0, _, _, _, _ => 0
  | fuel + 1, alo, ahi, blo, bhi =>
    let m := find_longest_match a b alo ahi blo bhi
    if m.2.2 = 0 then 0
    else m.2.2
      + (if alo < m.1 ∧ blo < m.2.1 then
          matchBlocksSum a b fuel alo m.1 blo m.2.1 else 0)
      + (if m.1 + m.2.2 < ahi ∧ m.2.1 + m.2.2 < bhi then
          matchBlocksSum a b fuel (m.1 + m.2.2) ahi (m.2.1 + m.2.2) bhi else 0)

/-- Sum of matching-block sizes over the whole of `a` and `b`; each
recursive split strictly shrinks the `a`-range, so fuel
`a.length + 1` is enough and the fuel case is never hit. -/
def matchingSum (a b : List Nat) : Nat :=
  matchBlocksSum a b (a.length + 1) 0 a.length 0 b.length

/-- The source's `DataProcessor.similar(a, b, threshold)`:
`SequenceMatcher(None, a, b).ratio() >= threshold`, where
`ratio = 2*M/T` with `T = len(a) + len(b)` (and 1.0 when `T = 0`).
The threshold is the rational `tnum / tden`; the call sites use `0.8`,
i.e. `4 / 5`, and the float comparison is modeled exactly on rationals. -/
def similar (a b : List Nat) (tnum tden : Nat) : Bool :=
  let t := a.length + b.length
  if t = 0 then true
  else decide (tnum * t ≤ tden * (2 * matchingSum a b))

/-! ## Records, sorting and sequential clustering
(`DataProcessor.sequential_cluster`) -/

/-- One invoice line (a dataframe row).  String-valued columns are code
point lists; `other` stands for the pass-through columns that the core
never reads or writes (`SourceName`, `DATA`, amounts, ...). -/
structure Record where
  piva : List Nat
  rs : List Nat
  descr : List Nat
  categoria : List Nat
  other : Nat
deriving DecidableEq, Repr

/-- A row after clustering: a `Record` plus the `cluster` column. -/
structure CRec extends Record where
  cluster : Nat
deriving DecidableEq, Repr

/-- A row with its index label (pandas integer index after
`reset_index(drop=True)`). -/
structure LRec extends CRec where
  label : Nat
deriving DecidableEq, Repr

/-- Lexicographic comparison of Python strings (code point lists). -/
def lexLe : List Nat → List Nat → Bool
  | [], _ => true
  | _ :: _, [] => false
  | a :: as_, b :: bs_ =>
    if a < b then true else if b < a then false else lexLe as_ bs_

/-- Row order of `df.sort_values(by=["P_IVA", "DESCRIZIONE"])`:
lexicographic on the pair of raw strings. -/
def keyLe (r s : Record) : Bool :=
  if r.piva = s.piva then lexLe r.descr s.descr else lexLe r.piva s.piva

/-- The row order as a relation. -/
def recLe (r s : Record) : Prop := keyLe r s = true

instance : DecidableRel recLe := fun r s => by
  unfold recLe
  infer_instance

/-- The sort, realized as an insertion sort.  `sort_values` does not
promise a stable order among rows with equal `(P_IVA, DESCRIZIONE)`; this
is one valid linearization, and no claim depends on the tie order. -/
def sortRecords (df : List Record) : List Record :=
  List.insertionSort recLe df

/-- The clustering walk of `sequential_cluster`.  The state carries the
supplier key of the group being walked, the previous record's normalized
description, and the current cluster id: the source iterates
`groupby("P_IVA")` groups of the sorted frame, which are exactly the
maximal contiguous runs of equal `P_IVA`, resetting `prev_desc = None`
and `cluster_id = 0` at every run boundary. -/
def clusterGo : Option (List Nat × List Nat × Nat) → List Record → List CRec
  | _, [] => []
  | st, r :: rest =>
    let d := clean_text r.descr
    match st with
    | none => ⟨r, 0⟩ :: clusterGo (some (r.piva, d, 0)) rest
    | some (p, prev, cid) =>
      if r.piva = p then
        if similar prev d 4 5 then
          ⟨r, cid⟩ :: clusterGo (some (p, d, cid)) rest
        else
          ⟨r, cid + 1⟩ :: clusterGo (some (p, d, cid + 1)) rest
      else
        ⟨r, 0⟩ :: clusterGo (some (r.piva, d, 0)) rest

/-- The source's `DataProcessor.sequential_cluster` at threshold 0.8:
sort by `(P_IVA, DESCRIZIONE)`, then assign cluster ids in one pass per
supplier group. -/
def sequential_cluster (df : List Record) : List CRec :=
  clusterGo none (sortRecords df)

/-! Specification-side clustering, written from the words of claim C2 /
spec section 4.3: group the sorted records by supplier key, and walk each
group once, starting at cluster 0 and comparing each record's normalized
description with the immediately preceding record's. -/

/-- Splits `r :: rest` into the maximal run of records sharing adjacent
equal supplier keys starting at `r`, and the runs after it. -/
def groupRunsAux : Record → List Record → (List Record × List (List Record))
  | r, [] => ([r], [])
  | r, s :: rest =>
    let pr := groupRunsAux s rest
    if s.piva = r.piva then (r :: pr.1, pr.2) else ([r], pr.1 :: pr.2)

/-- Contiguous runs of equal supplier key; on a sorted record list these
are exactly the supplier groups. -/
def groupRuns : List Record → List (List Record)
  | [] => []
  | r :: rest =>
    let pr := groupRunsAux r rest
    pr.1 :: pr.2

/-- Modelled from the spec (claim C2 wording): walk one group after its
first record, carrying the previous normalized description and the
current cluster id; assign the same id on similarity, the incremented id
otherwise, and always advance the baseline. -/
def walkGroupAux (prev : List Nat) (cid : Nat) : List Record → List CRec
  | [] => []
  | r :: rest =>
    let d := clean_text r.descr
    if similar prev d 4 5 then ⟨r, cid⟩ :: walkGroupAux d cid rest
    else ⟨r, cid + 1⟩ :: walkGroupAux d (cid + 1) rest

/-- Modelled from the spec (claim C2 wording): the first record of a
group gets cluster 0. -/
def walkGroup : List Record → List CRec
  | [] => []
  | r :: rest => ⟨r, 0⟩ :: walkGroupAux (clean_text r.descr) 0 rest

/-- Modelled from the spec (claim C2 wording): sort ascending by
(supplier key, raw description), then cluster each supplier group
independently by the one-pass walk. -/
def clusterBySpec (df : List Record) : List CRec :=
  ((groupRuns (sortRecords df)).map walkGroup).flatten

lemma clusterGo_cons_none (r : Record) (rest : List Record) :
    clusterGo none (r :: rest)
      = ⟨r, 0⟩ :: clusterGo (some (r.piva, clean_text r.descr, 0)) rest := rfl

lemma clusterGo_cons_some (p prev : List Nat) (cid : Nat) (r : Record)
    (rest : List Record) :
    clusterGo (some (p, prev, cid)) (r :: rest)
      = if r.piva = p then
          (if similar prev (clean_text r.descr) 4 5 then
            ⟨r, cid⟩ :: clusterGo (some (p, clean_text r.descr, cid)) rest
          else
            ⟨r, cid + 1⟩ :: clusterGo (some (p, clean_text r.descr, cid + 1)) rest)
        else ⟨r, 0⟩ :: clusterGo (some (r.piva, clean_text r.descr, 0)) rest := rfl

lemma groupRunsAux_cons (r s : Record) (rest : List Record) :
    groupRunsAux r (s :: rest)
      = if s.piva = r.piva then
          (r :: (groupRunsAux s rest).1, (groupRunsAux s rest).2)
        else ([r], (groupRunsAux s rest).1 :: (groupRunsAux s rest).2) := rfl

lemma groupRunsAux_fst_cons (r : Record) (rest : List Record) :
    (groupRunsAux r rest).1 = r :: (groupRunsAux r rest).1.drop 1 := by
  cases rest with
  | nil => rfl
  | cons u rest3 =>
    rw [groupRunsAux_cons]
    by_cases hu : u.piva = r.piva
    · rw [if_pos hu]
      rfl
    · rw [if_neg hu]
      rfl

lemma walkGroupAux_cons (prev : List Nat) (cid : Nat) (r : Record)
    (rest : List Record) :
    walkGroupAux prev cid (r :: rest)
      = if similar prev (clean_text r.descr) 4 5 then
          ⟨r, cid⟩ :: walkGroupAux (clean_text r.descr) cid rest
        else ⟨r, cid + 1⟩ :: walkGroupAux (clean_text r.descr) (cid + 1) rest := rfl

lemma walkGroup_run (r : Record) (rest : List Record) :
    walkGroup (groupRunsAux r rest).1
      = ⟨r, 0⟩ :: walkGroupAux (clean_text r.descr) 0
          ((groupRunsAux r rest).1.drop 1) := by
  conv_lhs => rw [groupRunsAux_fst_cons]
  rfl

lemma clusterGo_map_toRecord : ∀ (l : List Record)
    (st : Option (List Nat × List Nat × Nat)),
    (clusterGo st l).map (fun c => c.toRecord) = l := by
  intro l
  induction l with
  | nil => intro st; cases st <;> rfl
  | cons r rest ih =>
    intro st
    match st with
    | none => rw [clusterGo_cons_none]; simp only [List.map_cons, ih]
    | some (p, prev, cid) =>
      rw [clusterGo_cons_some]
      by_cases hp : r.piva = p
      · rw [if_pos hp]
        by_cases hsim : similar prev (clean_text r.descr) 4 5
        · rw [if_pos hsim]; simp only [List.map_cons, ih]
        · rw [if_neg hsim]; simp only [List.map_cons, ih]
      · rw [if_neg hp]; simp only [List.map_cons, ih]

lemma clusterGo_run (rest : List Record) : ∀ (r : Record) (prev : List Nat)
    (cid : Nat),
    clusterGo (some (r.piva, prev, cid)) rest
      = walkGroupAux prev cid ((groupRunsAux r rest).1.drop 1)
        ++ ((groupRunsAux r rest).2.map walkGroup).flatten := by
  induction rest with
  | nil => intro r prev cid; rfl
  | cons s rest2 ih =>
    intro r prev cid
    rw [groupRunsAux_cons]
    by_cases hp : s.piva = r.piva
    · rw [if_pos hp]
      rw [clusterGo_cons_some]
      rw [if_pos hp]
      rw [List.drop_one, List.tail_cons]
      conv_rhs => rw [groupRunsAux_fst_cons s rest2]
      rw [walkGroupAux_cons]
      by_cases hsim : similar prev (clean_text s.descr) 4 5
      · rw [if_pos hsim, if_pos hsim]
        have hih := ih s (clean_text s.descr) cid
        rw [hp] at hih
        rw [hih]
        rfl
      · rw [if_neg hsim, if_neg hsim]
        have hih := ih s (clean_text s.descr) (cid + 1)
        rw [hp] at hih
        rw [hih]
        rfl
    · rw [if_neg hp]
      rw [clusterGo_cons_some]
      rw [if_neg hp]
      rw [ih s (clean_text s.descr) 0]
      show ⟨s, 0⟩ :: (walkGroupAux (clean_text s.descr) 0
            ((groupRunsAux s rest2).1.drop 1)
          ++ ((groupRunsAux s rest2).2.map walkGroup).flatten)
        = walkGroupAux prev cid ([r].drop 1)
          ++ (walkGroup (groupRunsAux s rest2).1
              ++ ((groupRunsAux s rest2).2.map walkGroup).flatten)
      rw [walkGroup_run]
      rfl

lemma sequential_cluster_eq_spec (df : List Record) :
    sequential_cluster df = clusterBySpec df := by
  unfold sequential_cluster clusterBySpec
  cases hs : sortRecords df with
  | nil => rfl
  | cons r rest =>
    rw [clusterGo_cons_none]
    rw [clusterGo_run rest r (clean_text r.descr) 0]
    show ⟨r, 0⟩ :: (walkGroupAux (clean_text r.descr) 0
          ((groupRunsAux r rest).1.drop 1)
        ++ ((groupRunsAux r rest).2.map walkGroup).flatten)
      = (((groupRunsAux r rest).1 :: (groupRunsAux r rest).2).map
          walkGroup).flatten
    simp only [List.map_cons, List.flatten_cons]
    rw [walkGroup_run]
    rfl

lemma sequential_cluster_records (df : List Record) :
    (sequential_cluster df).map (fun c => c.toRecord) = sortRecords df :=
  clusterGo_map_toRecord (sortRecords df) none

/-- Claim C2: `sequential_cluster` computes exactly the algorithm stated
in the spec — sort ascending by (supplier key, raw description), walk
each supplier group once assigning cluster 0 to its first record and, for
each later record, the previous record's cluster id when the normalized
descriptions are similar at the threshold, the incremented id otherwise,
always updating the comparison baseline — and it assigns a cluster to
every record (the underlying records of the output are the sorted
input). -/
theorem claim_C2_sequential_cluster_spec (df : List Record) :
    sequential_cluster df = clusterBySpec df
    ∧ (sequential_cluster df).map (fun c => c.toRecord) = sortRecords df :=
  ⟨sequential_cluster_eq_spec df, sequential_cluster_records df⟩

/-! Elementary order theory for `lexLe` and the row order. -/

lemma lexLe_cons_cons (a b : Nat) (as_ bs_ : List Nat) :
    lexLe (a :: as_) (b :: bs_)
      = if a < b then true else if b < a then false else lexLe as_ bs_ := rfl

lemma lexLe_cons_iff {a b : Nat} {as_ bs_ : List Nat} :
    lexLe (a :: as_) (b :: bs_) = true
      ↔ a < b ∨ (a = b ∧ lexLe as_ bs_ = true) := by
  rw [lexLe_cons_cons]
  by_cases h1 : a < b
  · rw [if_pos h1]
    constructor
    · intro _; exact Or.inl h1
    · intro _; rfl
  · rw [if_neg h1]
    by_cases h2 : b < a
    · rw [if_pos h2]
      constructor
      · intro h; cases h
      · intro h
        rcases h with h | h
        · omega
        · omega
    · rw [if_neg h2]
      constructor
      · intro h; exact Or.inr ⟨by omega, h⟩
      · intro h
        rcases h with h | h
        · omega
        · exact h.2

lemma lexLe_refl : ∀ l : List Nat, lexLe l l = true := by
  intro l
  induction l with
  | nil => rfl
  | cons a as_ ih => exact lexLe_cons_iff.mpr (Or.inr ⟨rfl, ih⟩)

lemma lexLe_total : ∀ a b : List Nat, lexLe a b = true ∨ lexLe b a = true := by
  intro a
  induction a with
  | nil => intro b; left; rfl
  | cons x xs ih =>
    intro b
    cases b with
    | nil => right; rfl
    | cons y ys =>
      rcases Nat.lt_trichotomy x y with h | h | h
      · exact Or.inl (lexLe_cons_iff.mpr (Or.inl h))
      · rcases ih ys with h2 | h2
        · exact Or.inl (lexLe_cons_iff.mpr (Or.inr ⟨h, h2⟩))
        · exact Or.inr (lexLe_cons_iff.mpr (Or.inr ⟨h.symm, h2⟩))
      · exact Or.inr (lexLe_cons_iff.mpr (Or.inl h))

lemma lexLe_trans : ∀ a b c : List Nat,
    lexLe a b = true → lexLe b c = true → lexLe a c = true := by
  intro a
  induction a with
  | nil => intro b c _ _; rfl
  | cons x xs ih =>
    intro b c hab hbc
    cases b with
    | nil => cases hab
    | cons y ys =>
      cases c with
      | nil => cases hbc
      | cons z zs =>
      rcases lexLe_cons_iff.mp hab with h1 | ⟨h1, h1t⟩ <;>
        rcases lexLe_cons_iff.mp hbc with h2 | ⟨h2, h2t⟩
      · exact lexLe_cons_iff.mpr (Or.inl (by omega))
      · exact lexLe_cons_iff.mpr (Or.inl (by omega))
      · exact lexLe_cons_iff.mpr (Or.inl (by omega))
      · exact lexLe_cons_iff.mpr (Or.inr ⟨by omega, ih ys zs h1t h2t⟩)

lemma lexLe_antisymm : ∀ a b : List Nat,
    lexLe a b = true → lexLe b a = true → a = b := by
  intro a
  induction a with
  | nil =>
    intro b _ hba
    cases b with
    | nil => rfl
    | cons y ys => cases hba
  | cons x xs ih =>
    intro b hab hba
    cases b with
    | nil => cases hab
    | cons y ys =>
      rcases lexLe_cons_iff.mp hab with h1 | ⟨h1, h1t⟩ <;>
        rcases lexLe_cons_iff.mp hba with h2 | ⟨h2, h2t⟩
      · omega
      · omega
      · omega
      · rw [h1, ih ys h1t h2t]

lemma keyLe_total : ∀ r s : Record, keyLe r s = true ∨ keyLe s r = true := by
  intro r s
  unfold keyLe
  by_cases hp : r.piva = s.piva
  · rw [if_pos hp, if_pos hp.symm]
    exact lexLe_total _ _
  · rw [if_neg hp, if_neg (fun h => hp h.symm)]
    exact lexLe_total _ _

lemma keyLe_trans : ∀ r s t : Record,
    keyLe r s = true → keyLe s t = true → keyLe r t = true := by
  intro r s t hrs hst
  unfold keyLe at hrs hst ⊢
  by_cases h1 : r.piva = s.piva
  · rw [if_pos h1] at hrs
    by_cases h2 : s.piva = t.piva
    · rw [if_pos h2] at hst
      rw [if_pos (h1.trans h2)]
      exact lexLe_trans _ _ _ hrs hst
    · rw [if_neg h2] at hst
      rw [if_neg (fun h => h2 (h1.symm.trans h)), h1]
      exact hst
  · rw [if_neg h1] at hrs
    by_cases h2 : s.piva = t.piva
    · rw [if_neg (fun h => h1 (h.trans h2.symm)), ← h2]
      exact hrs
    · rw [if_neg h2] at hst
      have h3 : r.piva ≠ t.piva := by
        intro h
        have := lexLe_antisymm _ _ hrs (h ▸ hst)
        exact h1 this
      rw [if_neg h3]
      exact lexLe_trans _ _ _ hrs hst

instance : IsTotal Record recLe := ⟨keyLe_total⟩

instance : IsTrans Record recLe := ⟨keyLe_trans⟩

lemma sortRecords_sorted (df : List Record) :
    (sortRecords df).Sorted recLe := List.sorted_insertionSort recLe df

lemma sortRecords_perm (df : List Record) :
    (sortRecords df).Perm df := List.perm_insertionSort recLe df

/-! Structure of the supplier runs produced by `groupRuns`. -/

/-- Supplier key of a run (its first record's `P_IVA`). -/
def runPiva : List Record → List Nat
  | [] => []
  | r :: _ => r.piva

lemma groupRunsAux_facts (rest : List Record) : ∀ r : Record,
    (groupRunsAux r rest).1 ++ (groupRunsAux r rest).2.flatten = r :: rest
    ∧ (∀ x ∈ (groupRunsAux r rest).1, x.piva = r.piva)
    ∧ (∀ R ∈ (groupRunsAux r rest).2, R ≠ [] ∧ ∀ x ∈ R, x.piva = runPiva R)
    ∧ List.Chain' (fun R1 R2 => runPiva R1 ≠ runPiva R2)
        ((groupRunsAux r rest).1 :: (groupRunsAux r rest).2) := by
  induction rest with
  | nil =>
    intro r
    refine ⟨rfl, ?_, ?_, ?_⟩
    · intro x hx
      rcases List.mem_singleton.mp hx with rfl
      rfl
    · intro R hR; cases hR
    · exact List.chain'_singleton _
  | cons s rest2 ih =>
    intro r
    obtain ⟨ihA, ihB, ihC, ihD⟩ := ih s
    have hfst : runPiva (groupRunsAux s rest2).1 = s.piva := by
      rw [groupRunsAux_fst_cons]
      rfl
    rw [groupRunsAux_cons]
    by_cases hp : s.piva = r.piva
    · rw [if_pos hp]
      refine ⟨?_, ?_, ihC, ?_⟩
      · show r :: ((groupRunsAux s rest2).1 ++ (groupRunsAux s rest2).2.flatten)
            = r :: s :: rest2
        rw [ihA]
      · intro x hx
        rcases List.mem_cons.mp hx with rfl | hx2
        · rfl
        · rw [ihB x hx2, hp]
      · have hD2 := List.chain'_cons'.mp ihD
        refine List.chain'_cons'.mpr ⟨?_, hD2.2⟩
        intro y hy
        have := hD2.1 y hy
        rw [hfst] at this
        show runPiva (r :: (groupRunsAux s rest2).1) ≠ runPiva y
        show r.piva ≠ runPiva y
        rw [← hp]
        exact this
    · rw [if_neg hp]
      refine ⟨?_, ?_, ?_, ?_⟩
      · show r :: ((groupRunsAux s rest2).1 ++ (groupRunsAux s rest2).2.flatten)
            = r :: s :: rest2
        rw [ihA]
      · intro x hx
        rcases List.mem_singleton.mp hx with rfl
        rfl
      · intro R hR
        rcases List.mem_cons.mp hR with rfl | hR2
        · refine ⟨?_, ?_⟩
          · rw [groupRunsAux_fst_cons]
            exact List.cons_ne_nil _ _
          · intro x hx
            rw [ihB x hx, hfst]
        · exact ihC R hR2
      · refine List.chain'_cons'.mpr ⟨?_, ihD⟩
        intro y hy
        simp only [List.head?_cons, Option.mem_def, Option.some.injEq] at hy
        rw [← hy, hfst]
        show r.piva ≠ s.piva
        exact fun h => hp h.symm

lemma groupRuns_flatten (l : List Record) : (groupRuns l).flatten = l := by
  cases l with
  | nil => rfl
  | cons r rest =>
    show (groupRunsAux r rest).1 ++ (groupRunsAux r rest).2.flatten = r :: rest
    exact (groupRunsAux_facts rest r).1

lemma groupRuns_runs_ne_nil (l : List Record) :
    ∀ R ∈ groupRuns l, R ≠ [] := by
  cases l with
  | nil => intro R hR; cases hR
  | cons r rest =>
    intro R hR
    rcases List.mem_cons.mp hR with rfl | hR2
    · rw [groupRunsAux_fst_cons]
      exact List.cons_ne_nil _ _
    · exact ((groupRunsAux_facts rest r).2.2.1 R hR2).1

lemma groupRuns_const_piva (l : List Record) :
    ∀ R ∈ groupRuns l, ∀ x ∈ R, x.piva = runPiva R := by
  cases l with
  | nil => intro R hR; cases hR
  | cons r rest =>
    intro R hR
    rcases List.mem_cons.mp hR with rfl | hR2
    · intro x hx
      have h1 := (groupRunsAux_facts rest r).2.1 x hx
      have h2 : runPiva (groupRunsAux r rest).1 = r.piva := by
        rw [groupRunsAux_fst_cons]
        rfl
      rw [h1, h2]
    · exact ((groupRunsAux_facts rest r).2.2.1 R hR2).2

lemma groupRuns_piva_chain (l : List Record) :
    List.Chain' (fun R1 R2 => runPiva R1 ≠ runPiva R2) (groupRuns l) := by
  cases l with
  | nil => exact List.chain'_nil
  | cons r rest => exact (groupRunsAux_facts rest r).2.2.2

/-! Shape of the per-group walk output. -/

lemma walkGroupAux_map_toRecord : ∀ (rest : List Record) (prev : List Nat)
    (cid : Nat), (walkGroupAux prev cid rest).map (fun c => c.toRecord) = rest := by
  intro rest
  induction rest with
  | nil => intro prev cid; rfl
  | cons r rest2 ih =>
    intro prev cid
    rw [walkGroupAux_cons]
    by_cases hsim : similar prev (clean_text r.descr) 4 5
    · rw [if_pos hsim]
      simp only [List.map_cons, ih]
    · rw [if_neg hsim]
      simp only [List.map_cons, ih]

lemma walkGroup_map_toRecord (R : List Record) :
    (walkGroup R).map (fun c => c.toRecord) = R := by
  cases R with
  | nil => rfl
  | cons r rest =>
    show r :: (walkGroupAux (clean_text r.descr) 0 rest).map
        (fun c => c.toRecord) = r :: rest
    rw [walkGroupAux_map_toRecord]

lemma mem_walkGroup_toRecord {R : List Record} {y : CRec}
    (hy : y ∈ walkGroup R) : y.toRecord ∈ R := by
  have : y.toRecord ∈ (walkGroup R).map (fun c => c.toRecord) :=
    List.mem_map.mpr ⟨y, hy, rfl⟩
  rw [walkGroup_map_toRecord] at this
  exact this

lemma walkGroup_ne_nil {R : List Record} (h : R ≠ []) : walkGroup R ≠ [] := by
  cases R with
  | nil => cases h rfl
  | cons r rest => exact List.cons_ne_nil _ _

/-- Cluster ids step by 0 or 1 along the walk. -/
lemma walkGroupAux_cluster_chain : ∀ (rest : List Record) (prev : List Nat)
    (cid : Nat) (x : CRec), x.cluster = cid →
    List.Chain' (fun a b : CRec => b.cluster = a.cluster ∨ b.cluster = a.cluster + 1)
      (x :: walkGroupAux prev cid rest) := by
  intro rest
  induction rest with
  | nil => intro prev cid x _; exact List.chain'_singleton _
  | cons r rest2 ih =>
    intro prev cid x hx
    rw [walkGroupAux_cons]
    by_cases hsim : similar prev (clean_text r.descr) 4 5
    · rw [if_pos hsim]
      exact List.chain'_cons.mpr
        ⟨Or.inl (by rw [hx]), ih (clean_text r.descr) cid ⟨r, cid⟩ rfl⟩
    · rw [if_neg hsim]
      exact List.chain'_cons.mpr
        ⟨Or.inr (by rw [hx]), ih (clean_text r.descr) (cid + 1) ⟨r, cid + 1⟩ rfl⟩

lemma walkGroup_cluster_chain (R : List Record) :
    List.Chain' (fun a b : CRec => b.cluster = a.cluster ∨ b.cluster = a.cluster + 1)
      (walkGroup R) := by
  cases R with
  | nil => exact List.chain'_nil
  | cons r rest => exact walkGroupAux_cluster_chain rest _ 0 _ rfl

lemma walkGroup_head_cluster {R : List Record} (h : R ≠ []) :
    ∃ x, (walkGroup R).head? = some x ∧ x.cluster = 0 := by
  cases R with
  | nil => cases h rfl
  | cons r rest => exact ⟨⟨r, 0⟩, rfl, rfl⟩

/-! Generic chain combinators. -/

lemma chain'_conj_pairwise {α : Type} {A B : α → α → Prop} :
    ∀ {l : List α}, List.Chain' A l → List.Pairwise B l →
      List.Chain' (fun a b => A a b ∧ B a b) l := by
  intro l
  induction l with
  | nil => intro _ _; exact List.chain'_nil
  | cons a t ih =>
    intro hc hp
    rcases List.pairwise_cons.mp hp with ⟨hab, hpt⟩
    rcases List.chain'_cons'.mp hc with ⟨hhead, hct⟩
    refine List.chain'_cons'.mpr ⟨?_, ih hct hpt⟩
    intro y hy
    exact ⟨hhead y hy, hab y (List.mem_of_mem_head? hy)⟩

lemma chain'_imp_of_mem {α : Type} {A B : α → α → Prop} :
    ∀ {l : List α}, (∀ a ∈ l, ∀ b ∈ l, A a b → B a b) →
      List.Chain' A l → List.Chain' B l := by
  intro l
  induction l with
  | nil => intro _ _; exact List.chain'_nil
  | cons a t ih =>
    intro h hc
    rcases List.chain'_cons'.mp hc with ⟨hhead, hct⟩
    refine List.chain'_cons'.mpr ⟨?_, ?_⟩
    · intro y hy
      refine h a (List.mem_cons_self a t) y ?_ (hhead y hy)
      exact List.mem_cons_of_mem _ (List.mem_of_mem_head? hy)
    · refine ih ?_ hct
      intro x hx y hy hAB
      exact h x (List.mem_cons_of_mem _ hx) y (List.mem_cons_of_mem _ hy) hAB

/-! The composite (supplier key, cluster id) order along the clustered
output. -/

def keyOrd (r s : CRec) : Prop :=
  (r.piva ≠ s.piva ∧ lexLe r.piva s.piva = true)
  ∨ (r.piva = s.piva ∧ r.cluster ≤ s.cluster)

instance : IsTrans CRec keyOrd := by
  refine ⟨fun r s t hrs hst => ?_⟩
  rcases hrs with ⟨h1, h2⟩ | ⟨h1, h2⟩ <;> rcases hst with ⟨h3, h4⟩ | ⟨h3, h4⟩
  · left
    refine ⟨?_, lexLe_trans _ _ _ h2 h4⟩
    intro h
    exact h3 (lexLe_antisymm _ _ h4 (h ▸ h2))
  · left
    exact ⟨fun h => h1 (h.trans h3.symm), h3 ▸ h2⟩
  · left
    exact ⟨fun h => h3 (h1.symm.trans h), h1 ▸ h4⟩
  · right
    exact ⟨h1.trans h3, h2.trans h4⟩

def runLt (R1 R2 : List Record) : Prop :=
  lexLe (runPiva R1) (runPiva R2) = true ∧ runPiva R1 ≠ runPiva R2

instance : IsTrans (List Record) runLt := by
  refine ⟨fun a b c hab hbc => ?_⟩
  refine ⟨lexLe_trans _ _ _ hab.1 hbc.1, fun h => ?_⟩
  exact hbc.2 (lexLe_antisymm _ _ hbc.1 (h ▸ hab.1))

lemma runs_cross_keyLe (df : List Record) :
    (groupRuns (sortRecords df)).Pairwise
      (fun R1 R2 => ∀ x ∈ R1, ∀ y ∈ R2, recLe x y) := by
  have hs : (sortRecords df).Pairwise recLe := sortRecords_sorted df
  rw [← groupRuns_flatten (sortRecords df)] at hs
  exact (List.pairwise_flatten.mp hs).2

lemma runs_runLt_chain (df : List Record) :
    List.Chain' runLt (groupRuns (sortRecords df)) := by
  have hconj := chain'_conj_pairwise (groupRuns_piva_chain (sortRecords df))
    (runs_cross_keyLe df)
  refine chain'_imp_of_mem (fun R1 h1 R2 h2 hAB => ?_) hconj
  obtain ⟨hne, hcross⟩ := hAB
  refine ⟨?_, hne⟩
  cases hR1 : R1 with
  | nil => cases (groupRuns_runs_ne_nil _ R1 h1) hR1
  | cons x xs =>
    cases hR2 : R2 with
    | nil => cases (groupRuns_runs_ne_nil _ R2 h2) hR2
    | cons y ys =>
      have hk : recLe x y := by
        refine hcross x ?_ y ?_
        · rw [hR1]; exact List.mem_cons_self x xs
        · rw [hR2]; exact List.mem_cons_self y ys
      unfold recLe keyLe at hk
      show lexLe x.piva y.piva = true
      by_cases hxy : x.piva = y.piva
      · rw [hxy]
        exact lexLe_refl _
      · rw [if_neg hxy] at hk
        exact hk

lemma runs_runLt_pairwise (df : List Record) :
    (groupRuns (sortRecords df)).Pairwise runLt :=
  List.chain'_iff_pairwise.mp (runs_runLt_chain df)

lemma cluster_keyOrd_pairwise (df : List Record) :
    (sequential_cluster df).Pairwise keyOrd := by
  rw [sequential_cluster_eq_spec]
  unfold clusterBySpec
  set runs := groupRuns (sortRecords df) with hruns
  have hnn : [] ∉ runs.map walkGroup := by
    intro hmem
    rcases List.mem_map.mp hmem with ⟨R, hR, hEq⟩
    exact walkGroup_ne_nil (groupRuns_runs_ne_nil _ R hR) hEq
  have hchain : List.Chain' keyOrd (runs.map walkGroup).flatten := by
    refine (List.chain'_flatten hnn).mpr ⟨?_, ?_⟩
    · intro l' hl'
      rcases List.mem_map.mp hl' with ⟨R, hR, rfl⟩
      refine chain'_imp_of_mem (fun a ha b hb hab => ?_)
        (walkGroup_cluster_chain R)
      have hpa : a.piva = runPiva R :=
        groupRuns_const_piva _ R hR a.toRecord (mem_walkGroup_toRecord ha)
      have hpb : b.piva = runPiva R :=
        groupRuns_const_piva _ R hR b.toRecord (mem_walkGroup_toRecord hb)
      right
      refine ⟨hpa.trans hpb.symm, ?_⟩
      rcases hab with h | h <;> omega
    · rw [List.chain'_map]
      have hconj := chain'_conj_pairwise (groupRuns_piva_chain (sortRecords df))
        (runs_cross_keyLe df)
      refine chain'_imp_of_mem (fun R1 h1 R2 h2 hAB => ?_) hconj
      obtain ⟨hne, hcross⟩ := hAB
      intro x hx y hy
      have hxm : x.toRecord ∈ R1 :=
        mem_walkGroup_toRecord (List.mem_of_mem_getLast? hx)
      have hym : y.toRecord ∈ R2 :=
        mem_walkGroup_toRecord (List.mem_of_mem_head? hy)
      have hpx : x.piva = runPiva R1 := groupRuns_const_piva _ R1 h1 _ hxm
      have hpy : y.piva = runPiva R2 := groupRuns_const_piva _ R2 h2 _ hym
      have hk : recLe x.toRecord y.toRecord := hcross _ hxm _ hym
      unfold recLe keyLe at hk
      have hpne : x.piva ≠ y.piva := by
        rw [hpx, hpy]; exact hne
      left
      refine ⟨hpne, ?_⟩
      rw [if_neg hpne] at hk
      exact hk
  exact List.chain'_iff_pairwise.mp hchain

/-! Three-way partition of a list whose elements appear in class order. -/

lemma filter_partition3 {α : Type} (P Q R : α → Bool) :
    ∀ (l : List α),
    (∀ x ∈ l, (P x = true ∧ Q x = false ∧ R x = false)
      ∨ (P x = false ∧ Q x = true ∧ R x = false)
      ∨ (P x = false ∧ Q x = false ∧ R x = true)) →
    l.Pairwise (fun x y => (Q x = true → P y = false)
      ∧ (R x = true → P y = false ∧ Q y = false)) →
    l = l.filter P ++ l.filter Q ++ l.filter R := by
  intro l
  induction l with
  | nil => intro _ _; rfl
  | cons a t ih =>
    intro hone hord
    rcases List.pairwise_cons.mp hord with ⟨ha, hordt⟩
    have hit := ih (fun x hx => hone x (List.mem_cons_of_mem _ hx)) hordt
    rcases hone a (List.mem_cons_self a t) with ⟨h1, h2, h3⟩ | ⟨h1, h2, h3⟩
      | ⟨h1, h2, h3⟩
    · rw [List.filter_cons_of_pos h1, List.filter_cons_of_neg (by rw [h2]; simp),
        List.filter_cons_of_neg (by rw [h3]; simp)]
      show a :: t = (a :: t.filter P) ++ t.filter Q ++ t.filter R
      simp only [List.cons_append]
      rw [← hit]
    · have hPt : t.filter P = [] := by
        rw [List.filter_eq_nil_iff]
        intro x hx
        rw [(ha x hx).1 h2]
        simp
      rw [List.filter_cons_of_neg (by rw [h1]; simp), List.filter_cons_of_pos h2,
        List.filter_cons_of_neg (by rw [h3]; simp), hPt]
      show a :: t = [] ++ (a :: t.filter Q) ++ t.filter R
      rw [hPt] at hit
      simp only [List.nil_append] at hit
      simp only [List.nil_append, List.cons_append]
      rw [← hit]
    · have hPt : t.filter P = [] := by
        rw [List.filter_eq_nil_iff]
        intro x hx
        rw [((ha x hx).2 h3).1]
        simp
      have hQt : t.filter Q = [] := by
        rw [List.filter_eq_nil_iff]
        intro x hx
        rw [((ha x hx).2 h3).2]
        simp
      rw [List.filter_cons_of_neg (by rw [h1]; simp),
        List.filter_cons_of_neg (by rw [h2]; simp),
        List.filter_cons_of_pos h3, hPt, hQt]
      rw [hPt, hQt] at hit
      simp only [List.nil_append] at hit
      show a :: t = [] ++ [] ++ (a :: t.filter R)
      simp only [List.nil_append, List.cons_append]
      rw [← hit]

/-! Per-supplier restriction of the clustered output. -/

lemma filter_walkGroup_piva (l : List Record) (R : List Record)
    (hR : R ∈ groupRuns l) (p : List Nat) :
    (walkGroup R).filter (fun r => decide (r.piva = p))
      = if runPiva R = p then walkGroup R else [] := by
  by_cases hp : runPiva R = p
  · rw [if_pos hp, List.filter_eq_self]
    intro y hy
    rw [decide_eq_true_iff]
    rw [groupRuns_const_piva l R hR y.toRecord (mem_walkGroup_toRecord hy)]
    exact hp
  · rw [if_neg hp, List.filter_eq_nil_iff]
    intro y hy hd
    rw [decide_eq_true_iff] at hd
    refine hp ?_
    rw [← groupRuns_const_piva l R hR y.toRecord (mem_walkGroup_toRecord hy)]
    exact hd

lemma select_unique {β : Type} (f : List Record → List β) (p : List Nat) :
    ∀ (runs : List (List Record)),
    runs.Pairwise (fun R1 R2 => runPiva R1 ≠ runPiva R2) →
    ((runs.map (fun R => if runPiva R = p then f R else [])).flatten = []
     ∨ ∃ R ∈ runs, runPiva R = p
        ∧ (runs.map (fun R => if runPiva R = p then f R else [])).flatten = f R) := by
  intro runs
  induction runs with
  | nil => intro _; left; rfl
  | cons R rest ih =>
    intro hpw
    rcases List.pairwise_cons.mp hpw with ⟨hR, hrest⟩
    by_cases hp : runPiva R = p
    · right
      refine ⟨R, List.mem_cons_self R rest, hp, ?_⟩
      have htail : (rest.map (fun S => if runPiva S = p then f S else [])).flatten
          = [] := by
        rw [List.flatten_eq_nil_iff]
        intro l' hl'
        rcases List.mem_map.mp hl' with ⟨S, hS, rfl⟩
        rw [if_neg (fun h => hR S hS (hp.trans h.symm))]
      simp only [List.map_cons, List.flatten_cons, if_pos hp, htail,
        List.append_nil]
    · simp only [List.map_cons, List.flatten_cons, if_neg hp, List.nil_append]
      rcases ih hrest with h | ⟨S, hS, hSp, hEq⟩
      · left; exact h
      · right; exact ⟨S, List.mem_cons_of_mem _ hS, hSp, hEq⟩

lemma filtered_supplier (df : List Record) (p : List Nat) :
    (sequential_cluster df).filter (fun r => decide (r.piva = p)) = []
    ∨ ∃ R ∈ groupRuns (sortRecords df), runPiva R = p
        ∧ (sequential_cluster df).filter (fun r => decide (r.piva = p))
            = walkGroup R := by
  rw [sequential_cluster_eq_spec]
  unfold clusterBySpec
  rw [List.filter_flatten, List.map_map]
  have hcong : (groupRuns (sortRecords df)).map
      ((List.filter (fun r => decide (r.piva = p))) ∘ walkGroup)
      = (groupRuns (sortRecords df)).map
        (fun R => if runPiva R = p then walkGroup R else []) := by
    refine List.map_congr_left (fun R hR => ?_)
    exact filter_walkGroup_piva _ R hR p
  rw [hcong]
  have hpw : (groupRuns (sortRecords df)).Pairwise
      (fun R1 R2 => runPiva R1 ≠ runPiva R2) :=
    (runs_runLt_pairwise df).imp (fun h => h.2)
  exact select_unique walkGroup p (groupRuns (sortRecords df)) hpw

/-! The three class predicates of the composite (supplier, cluster)
order, used to state that each group occupies a contiguous interval. -/

def ltKey (p : List Nat) (c : Nat) (r : CRec) : Bool :=
  if r.piva = p then decide (r.cluster < c) else lexLe r.piva p

def eqKey (p : List Nat) (c : Nat) (r : CRec) : Bool :=
  if r.piva = p then decide (r.cluster = c) else false

def gtKey (p : List Nat) (c : Nat) (r : CRec) : Bool :=
  if r.piva = p then decide (c < r.cluster) else lexLe p r.piva

lemma key_classes_one (p : List Nat) (c : Nat) (r : CRec) :
    (ltKey p c r = true ∧ eqKey p c r = false ∧ gtKey p c r = false)
    ∨ (ltKey p c r = false ∧ eqKey p c r = true ∧ gtKey p c r = false)
    ∨ (ltKey p c r = false ∧ eqKey p c r = false ∧ gtKey p c r = true) := by
  unfold ltKey eqKey gtKey
  by_cases hp : r.piva = p
  · rw [if_pos hp, if_pos hp, if_pos hp]
    simp only [decide_eq_true_eq, decide_eq_false_iff_not]
    omega
  · rw [if_neg hp, if_neg hp, if_neg hp]
    by_cases h2 : lexLe r.piva p = true
    · left
      refine ⟨h2, rfl, ?_⟩
      rw [Bool.eq_false_iff]
      intro h3
      exact hp (lexLe_antisymm _ _ h2 h3)
    · right; right
      refine ⟨Bool.eq_false_iff.mpr h2, rfl, ?_⟩
      rcases lexLe_total r.piva p with h | h
      · exact absurd h h2
      · exact h

lemma key_classes_ord (p : List Nat) (c : Nat) {x y : CRec}
    (hk : keyOrd x y) :
    (eqKey p c x = true → ltKey p c y = false)
    ∧ (gtKey p c x = true → ltKey p c y = false ∧ eqKey p c y = false) := by
  constructor
  · intro hx
    unfold eqKey at hx
    by_cases hxp : x.piva = p
    · rw [if_pos hxp] at hx
      rw [decide_eq_true_iff] at hx
      rcases hk with ⟨hne, hlex⟩ | ⟨heq, hle⟩
      · have hyp : y.piva ≠ p := fun h => hne (hxp.trans h.symm)
        unfold ltKey
        rw [if_neg hyp, Bool.eq_false_iff]
        intro h2
        have h3 : lexLe y.piva x.piva = true := by rw [hxp]; exact h2
        exact hne (lexLe_antisymm _ _ hlex h3)
      · unfold ltKey
        rw [if_pos (heq.symm.trans hxp)]
        simp only [decide_eq_false_iff_not]
        omega
    · rw [if_neg hxp] at hx
      cases hx
  · intro hx
    unfold gtKey at hx
    by_cases hxp : x.piva = p
    · rw [if_pos hxp] at hx
      rw [decide_eq_true_iff] at hx
      rcases hk with ⟨hne, hlex⟩ | ⟨heq, hle⟩
      · have hyp : y.piva ≠ p := fun h => hne (hxp.trans h.symm)
        constructor
        · unfold ltKey
          rw [if_neg hyp, Bool.eq_false_iff]
          intro h2
          have h3 : lexLe y.piva x.piva = true := by rw [hxp]; exact h2
          exact hne (lexLe_antisymm _ _ hlex h3)
        · unfold eqKey
          rw [if_neg hyp]
      · have hyp : y.piva = p := heq.symm.trans hxp
        constructor
        · unfold ltKey
          rw [if_pos hyp]
          simp only [decide_eq_false_iff_not]
          omega
        · unfold eqKey
          rw [if_pos hyp]
          simp only [decide_eq_false_iff_not]
          omega
    · rw [if_neg hxp] at hx
      rcases hk with ⟨hne, hlex⟩ | ⟨heq, hle⟩
      · have hyp : y.piva ≠ p := by
          intro h
          have h4 : lexLe x.piva p = true := by rw [← h]; exact hlex
          exact hxp (lexLe_antisymm _ _ h4 hx)
        constructor
        · unfold ltKey
          rw [if_neg hyp, Bool.eq_false_iff]
          intro h2
          exact hxp (lexLe_antisymm _ _ (lexLe_trans _ _ _ hlex h2) hx)
        · unfold eqKey
          rw [if_neg hyp]
      · have hyp : y.piva ≠ p := fun h => hxp (heq.trans h)
        constructor
        · unfold ltKey
          rw [if_neg hyp, Bool.eq_false_iff]
          intro h2
          rw [← heq] at h2
          exact hxp (lexLe_antisymm _ _ h2 hx)
        · unfold eqKey
          rw [if_neg hyp]

/-- Claim C10: after `sequential_cluster`, within each supplier key the
cluster ids along the sorted order form a sequence that starts at 0 and,
between adjacent records, either repeats or increases by exactly 1 (hence
is nondecreasing); and every (supplier key, cluster id) group occupies a
contiguous interval of the sorted output: the output is exactly the rows
strictly below the group in the composite (supplier, cluster) order,
then the group, then the rows strictly above it — and likewise the
per-supplier cluster sequence splits as the ids below `c`, then those
equal to `c`, then those above `c`. -/
theorem claim_C10_cluster_contiguity (df : List Record) (p : List Nat) (c : Nat) :
    ((((sequential_cluster df).filter (fun r => decide (r.piva = p))).map
        (fun r => r.cluster)) = []
      ∨ ((((sequential_cluster df).filter (fun r => decide (r.piva = p))).map
        (fun r => r.cluster)).head? = some 0))
    ∧ List.Chain' (fun a b => b = a ∨ b = a + 1)
        (((sequential_cluster df).filter (fun r => decide (r.piva = p))).map
          (fun r => r.cluster))
    ∧ ((((sequential_cluster df).filter (fun r => decide (r.piva = p))).map
          (fun r => r.cluster))
        = ((((sequential_cluster df).filter (fun r => decide (r.piva = p))).map
            (fun r => r.cluster)).filter (fun x => decide (x < c)))
          ++ ((((sequential_cluster df).filter (fun r => decide (r.piva = p))).map
            (fun r => r.cluster)).filter (fun x => decide (x = c)))
          ++ ((((sequential_cluster df).filter (fun r => decide (r.piva = p))).map
            (fun r => r.cluster)).filter (fun x => decide (c < x))))
    ∧ sequential_cluster df
        = (sequential_cluster df).filter (ltKey p c)
          ++ (sequential_cluster df).filter (eqKey p c)
          ++ (sequential_cluster df).filter (gtKey p c) := by
  have hchain : List.Chain' (fun a b => b = a ∨ b = a + 1)
      (((sequential_cluster df).filter (fun r => decide (r.piva = p))).map
        (fun r => r.cluster)) := by
    rcases filtered_supplier df p with hfil | ⟨R, hR, hRp, hfil⟩
    · rw [hfil]; exact List.chain'_nil
    · rw [hfil]
      rw [List.chain'_map]
      exact walkGroup_cluster_chain R
  refine ⟨?_, hchain, ?_, ?_⟩
  · rcases filtered_supplier df p with hfil | ⟨R, hR, hRp, hfil⟩
    · left; rw [hfil]; rfl
    · right
      rw [hfil]
      rcases walkGroup_head_cluster (groupRuns_runs_ne_nil _ R hR) with
        ⟨x, hx, hx0⟩
      rw [List.head?_map, hx]
      show some x.cluster = some 0
      rw [hx0]
  · refine filter_partition3 _ _ _ _ (fun x _ => ?_) ?_
    · simp only [decide_eq_true_eq, decide_eq_false_iff_not]
      omega
    · have hle : List.Chain' (fun a b : Nat => a ≤ b)
          (((sequential_cluster df).filter (fun r => decide (r.piva = p))).map
            (fun r => r.cluster)) := by
        refine List.Chain'.imp ?_ hchain
        intro a b h
        rcases h with h | h <;> omega
      have hpw := List.chain'_iff_pairwise.mp hle
      refine hpw.imp ?_
      intro a b hab
      constructor
      · intro hq
        simp only [decide_eq_true_eq] at hq
        simp only [decide_eq_false_iff_not]
        omega
      · intro hr
        simp only [decide_eq_true_eq] at hr
        simp only [decide_eq_false_iff_not]
        omega
  · exact filter_partition3 _ _ _ _ (fun x _ => key_classes_one p c x)
      ((cluster_keyOrd_pairwise df).imp (key_classes_ord p c))

/-! ## Batch rows and the response merge of `process_batch` -/

/-- Static configuration (`config.py`). -/
def Config.BATCH_SIZE : Nat := 50

def Config.LLM_Tries : Nat := 3

/-- The sentinel category string `'No categorizzato'`. -/
def noCat : List Nat :=
  [78, 111, 32, 99, 97, 116, 101, 103, 111, 114, 105, 122, 122, 97, 116, 111]

/-- A validated LLM response: `(id, CATEGORIA)` pairs. -/
abbrev Resp := List (Nat × List Nat)

/-- A row of a dispatched batch.  Every column is optional because pandas
setting-with-enlargement can append rows whose unset columns are NaN;
rows coming from real records have every field present. -/
structure BRow where
  label : Nat
  piva : Option (List Nat)
  rs : Option (List Nat)
  descr : Option (List Nat)
  categoria : Option (List Nat)
  other : Option Nat
  cluster : Option Nat
deriving DecidableEq, Repr

def toBRow (r : LRec) : BRow :=
  ⟨r.label, some r.piva, some r.rs, some r.descr, some r.categoria,
    some r.other, some r.cluster⟩

/-- pandas `batch.loc[i, 'CATEGORIA'] = cat`: update the category of every
row labeled `i`; when no row carries that label, setting with enlargement
appends a new row with that label, the given category, and NaN in every
other column. -/
def locSetCategoria (batch : List BRow) (i : Nat) (cat : List Nat) : List BRow :=
  if batch.any (fun r => decide (r.label = i)) then
    batch.map (fun r => if r.label = i then { r with categoria := some cat } else r)
  else
    batch ++ [⟨i, none, none, none, some cat, none, none⟩]

/-- The merge loop of `process_batch`:
`for item in response: batch.loc[item['id'], 'CATEGORIA'] = item['CATEGORIA']`. -/
def processBatchMerge (batch : List BRow) (resp : Resp) : List BRow :=
  resp.foldl (fun b ic => locSetCategoria b ic.1 ic.2) batch

/-- The category of the last response entry naming `i`, if any. -/
def lastCat (resp : Resp) (i : Nat) : Option (List Nat) :=
  ((resp.filter (fun ic => decide (ic.1 = i))).getLast?).map (fun ic => ic.2)

/-- Final effect of a response on one original batch row. -/
def applyResp (resp : Resp) (r : BRow) : BRow :=
  match lastCat resp r.label with
  | some cat => { r with categoria := some cat }
  | none => r

/-- Response identifiers outside the batch's label set, in order of first
appearance. -/
def foreignIds : Resp → List Nat → List Nat
  | [], _ => []
  | ic :: rest, labs =>
    if ic.1 ∈ labs then foreignIds rest labs
    else ic.1 :: foreignIds rest (labs ++ [ic.1])

/-- The rows appended by setting-with-enlargement. -/
def extraRows (resp : Resp) (labs : List Nat) : List BRow :=
  (foreignIds resp labs).map
    (fun i => ⟨i, none, none, none, lastCat resp i, none, none⟩)

lemma foreignIds_not_mem : ∀ (resp : Resp) (labs : List Nat) (j : Nat),
    j ∈ foreignIds resp labs → j ∉ labs := by
  intro resp
  induction resp with
  | nil => intro labs j hj; cases hj
  | cons ic rest ih =>
    intro labs j hj
    unfold foreignIds at hj
    by_cases hm : ic.1 ∈ labs
    · rw [if_pos hm] at hj
      exact ih labs j hj
    · rw [if_neg hm] at hj
      rcases List.mem_cons.mp hj with rfl | hj2
      · exact hm
      · intro hl
        exact ih (labs ++ [ic.1]) j hj2 (List.mem_append_left _ hl)

lemma lastCat_cons_ne {ic : Nat × List Nat} {rest : Resp} {j : Nat}
    (h : ic.1 ≠ j) : lastCat (ic :: rest) j = lastCat rest j := by
  unfold lastCat
  rw [List.filter_cons_of_neg (by simp [h])]

lemma lastCat_cons_eq {i : Nat} {c : List Nat} {rest : Resp} :
    lastCat ((i, c) :: rest) i
      = some ((lastCat rest i).getD c) := by
  unfold lastCat
  rw [List.filter_cons_of_pos (by simp)]
  cases hf : rest.filter (fun ic => decide (ic.1 = i)) with
  | nil => rfl
  | cons x xs =>
    rw [List.getLast?_cons_cons]
    cases hg : (x :: xs).getLast? with
    | none =>
      exact absurd hg (by simp)
    | some y => rfl

lemma foreignIds_cons (ic : Nat × List Nat) (rest : Resp) (labs : List Nat) :
    foreignIds (ic :: rest) labs
      = if ic.1 ∈ labs then foreignIds rest labs
        else ic.1 :: foreignIds rest (labs ++ [ic.1]) := rfl

/-- Structure theorem for the batch/response merge: the original rows,
each updated to the last category the response assigns to its label, then
one appended row per distinct foreign identifier. -/
lemma processBatchMerge_structure : ∀ (resp : Resp) (batch : List BRow),
    processBatchMerge batch resp
      = batch.map (applyResp resp)
        ++ extraRows resp (batch.map (fun r => r.label)) := by
  intro resp
  induction resp with
  | nil =>
    intro batch
    show batch = batch.map (applyResp []) ++ extraRows [] _
    have h1 : batch.map (applyResp []) = batch := by
      have : batch.map (applyResp []) = batch.map id :=
        List.map_congr_left (fun r _ => rfl)
      rw [this, List.map_id]
    have h2 : extraRows [] (batch.map (fun r => r.label)) = [] := rfl
    rw [h1, h2, List.append_nil]
  | cons ic rest ih =>
    intro batch
    obtain ⟨i, c⟩ := ic
    show processBatchMerge (locSetCategoria batch i c) rest = _
    rw [ih]
    by_cases hm : batch.any (fun r => decide (r.label = i))
    · -- the label is present: all rows labeled i are updated in place
      have hmem : i ∈ batch.map (fun r => r.label) := by
        rcases List.any_eq_true.mp hm with ⟨r, hr, hri⟩
        rw [decide_eq_true_iff] at hri
        exact List.mem_map.mpr ⟨r, hr, hri⟩
      unfold locSetCategoria
      rw [if_pos hm]
      have hlabs : (batch.map (fun r => if r.label = i
            then { r with categoria := some c } else r)).map (fun r => r.label)
          = batch.map (fun r => r.label) := by
        rw [List.map_map]
        refine List.map_congr_left (fun r _ => ?_)
        by_cases h : r.label = i
        · simp only [Function.comp_apply, if_pos h]
        · simp only [Function.comp_apply, if_neg h]
      rw [hlabs, List.map_map]
      congr 1
      · refine List.map_congr_left (fun r _ => ?_)
        simp only [Function.comp_apply]
        by_cases h : r.label = i
        · rw [if_pos h]
          unfold applyResp
          subst h
          rw [lastCat_cons_eq]
          cases hl : lastCat rest r.label with
          | none => simp [hl]
          | some c2 => simp [hl]
        · rw [if_neg h]
          unfold applyResp
          rw [lastCat_cons_ne (fun hh => h hh.symm)]
      · unfold extraRows
        rw [foreignIds_cons, if_pos hmem]
        refine List.map_congr_left (fun j hj => ?_)
        have hji : j ≠ i := by
          intro h
          exact (foreignIds_not_mem rest _ j hj) (h ▸ hmem)
        rw [lastCat_cons_ne (fun hh => hji hh.symm)]
    · -- the label is absent: enlargement appends a new row
      unfold locSetCategoria
      rw [if_neg hm]
      have hnotin : ∀ r ∈ batch, r.label ≠ i := by
        intro r hr h
        exact hm (List.any_eq_true.mpr ⟨r, hr, by rw [decide_eq_true_iff]; exact h⟩)
      have hno : i ∉ batch.map (fun r => r.label) := by
        intro hmem
        rcases List.mem_map.mp hmem with ⟨r, hr, hri⟩
        exact hnotin r hr hri
      have hlab2 : (batch ++ [(⟨i, none, none, none, some c, none, none⟩ : BRow)]).map
          (fun r => r.label) = batch.map (fun r => r.label) ++ [i] := by
        rw [List.map_append]
        rfl
      rw [List.map_append, hlab2]
      have h1 : batch.map (applyResp rest) = batch.map (applyResp ((i, c) :: rest)) := by
        refine List.map_congr_left (fun r hr => ?_)
        unfold applyResp
        rw [lastCat_cons_ne (fun hh => hnotin r hr hh.symm)]
      rw [h1]
      have h2 : ([(⟨i, none, none, none, some c, none, none⟩ : BRow)]).map
            (applyResp rest)
          = [⟨i, none, none, none, lastCat ((i, c) :: rest) i, none, none⟩] := by
        simp only [List.map_cons, List.map_nil]
        have happ : applyResp rest (⟨i, none, none, none, some c, none, none⟩ : BRow)
            = ⟨i, none, none, none, lastCat ((i, c) :: rest) i, none, none⟩ := by
          unfold applyResp
          rw [lastCat_cons_eq]
          cases hl : lastCat rest i with
          | none => rfl
          | some c2 => rfl
        rw [happ]
      rw [h2]
      have hfi : foreignIds ((i, c) :: rest) (batch.map (fun r => r.label))
          = i :: foreignIds rest (batch.map (fun r => r.label) ++ [i]) := by
        rw [foreignIds_cons, if_neg hno]
      unfold extraRows
      rw [hfi]
      simp only [List.map_cons]
      rw [List.append_assoc]
      congr 1
      show (⟨i, none, none, none, lastCat ((i, c) :: rest) i, none, none⟩ : BRow)
          :: extraRows rest (batch.map (fun r => r.label) ++ [i])
        = (⟨i, none, none, none, lastCat ((i, c) :: rest) i, none, none⟩ : BRow)
          :: (foreignIds rest (batch.map (fun r => r.label) ++ [i])).map
            (fun j => ⟨j, none, none, none, lastCat ((i, c) :: rest) j, none, none⟩)
      congr 1
      unfold extraRows
      refine List.map_congr_left (fun j hj => ?_)
      have hji : j ≠ i := by
        intro h
        exact (foreignIds_not_mem rest _ j hj)
          (List.mem_append_right _ (by rw [h]; exact List.mem_singleton.mpr rfl))
      rw [lastCat_cons_ne (fun hh => hji hh.symm)]

/-- Claim C5 (amended): the effect of a successful validated response on
a batch.  Rows whose label is named by the response get the last category
assigned to that label; rows whose label is absent are unchanged (they
keep the sentinel they carried) — this is `applyResp`, which leaves a row
untouched when `lastCat` is `none`; and each response identifier matching
no row appends, by pandas setting-with-enlargement, one new row with that
identifier, the last category assigned to it, and every other column
missing. -/
theorem claim_C5_process_batch_merge (batch : List BRow) (resp : Resp) :
    processBatchMerge batch resp
      = batch.map (applyResp resp)
        ++ extraRows resp (batch.map (fun r => r.label)) :=
  processBatchMerge_structure resp batch

/-- Counterexample to claim C5 as stated: a response pair whose
identifier (5) matches no row of the batch does have an effect — the
batch gains a row. -/
theorem claim_C5_counterexample :
    (∀ r ∈ [(⟨0, some [80], some [81], some [68], some noCat, some 7, some 0⟩ : BRow)],
      r.label ≠ 5)
    ∧ processBatchMerge
        [(⟨0, some [80], some [81], some [68], some noCat, some 7, some 0⟩ : BRow)]
        [(5, [70, 111, 111, 100])]
      ≠ [(⟨0, some [80], some [81], some [68], some noCat, some 7, some 0⟩ : BRow)] := by
  constructor
  · intro r hr
    rcases List.mem_singleton.mp hr with rfl
    decide
  · decide

/-! ## The retry loop of `process_batch` -/

/-- The request payload built once by `create_user_prompt` before the
retry loop: one `(id, RAGIONE_SOCIALE, DESCRIZIONE)` entry per row, in
row order.  It stands for the newline-joined
`"id ... | Ragione sociale: ... | Descrizione: ..."` string, whose
formatting is injective in these fields. -/
def create_user_prompt (batch : List BRow) :
    List (Nat × Option (List Nat) × Option (List Nat)) :=
  batch.map (fun r => (r.label, r.rs, r.descr))

/-- The `while tries > 0` retry loop of `process_batch`: call the
service; on success break; on failure decrement and re-raise the last
error when no tries remain.  The first component is the outcome
(`.error none` models the `NameError` of reading `response` when the
loop was never entered, i.e. `tries = 0` on entry); the second counts
service invocations. -/
def retryGo {E R : Type} (svc : Nat → Except E R) :
    Nat → Nat → Except (Option E) R × Nat
  | 0, calls => (.error none, calls)
  | t + 1, calls =>
    match svc calls with
    | .ok r => (.ok r, calls + 1)
    | .error e =>
      if t = 0 then (.error (some e), calls + 1) else retryGo svc t (calls + 1)

/-- The source's `process_batch`: build the prompt once, retry the
service up to `tries` times with that same prompt, then merge the
validated response into the batch.  The invocation count is returned
alongside so the retry contract can be stated. -/
def process_batch {E : Type}
    (svc : List (Nat × Option (List Nat) × Option (List Nat)) → Nat → Except E Resp)
    (tries : Nat) (batch : List BRow) : Except (Option E) (List BRow) × Nat :=
  let user_prompt := create_user_prompt batch
  match retryGo (svc user_prompt) tries 0 with
  | (.ok resp, calls) => (.ok (processBatchMerge batch resp), calls)
  | (.error e, calls) => (.error e, calls)

lemma retryGo_fail {E R : Type} (svc : Nat → Except E R) (e : Nat → E) :
    ∀ (t calls : Nat), 1 ≤ t → (∀ k, svc (calls + k) = .error (e (calls + k))) →
      retryGo svc t calls = (.error (some (e (calls + t - 1))), calls + t) := by
  intro t
  induction t with
  | zero => intro calls h; omega
  | succ t2 ih =>
    intro calls _ hfail
    have h0 := hfail 0
    rw [Nat.add_zero] at h0
    show (match svc calls with
      | .ok r => (Except.ok r, calls + 1)
      | .error e2 =>
        if t2 = 0 then (.error (some e2), calls + 1)
        else retryGo svc t2 (calls + 1)) = _
    rw [h0]
    dsimp only
    by_cases ht : t2 = 0
    · subst ht
      rw [if_pos rfl]
      have h1 : calls + (0 + 1) - 1 = calls := by omega
      rw [h1]
    · rw [if_neg ht]
      have hshift : ∀ k, svc (calls + 1 + k) = .error (e (calls + 1 + k)) := by
        intro k
        have h2 := hfail (1 + k)
        rw [← Nat.add_assoc] at h2
        exact h2
      rw [ih (calls + 1) (by omega) hshift]
      have h2 : calls + 1 + t2 - 1 = calls + (t2 + 1) - 1 := by omega
      have h3 : calls + 1 + t2 = calls + (t2 + 1) := by omega
      rw [h2, h3]

lemma retryGo_success {E R : Type} (svc : Nat → Except E R) :
    ∀ (t k0 calls : Nat) (r : R), k0 < t →
      (∀ k < k0, ∃ err, svc (calls + k) = .error err) →
      svc (calls + k0) = .ok r →
      retryGo svc t calls = (.ok r, calls + k0 + 1) := by
  intro t
  induction t with
  | zero => intro k0 calls r h; omega
  | succ t2 ih =>
    intro k0 calls r hk0 hfails hok
    show (match svc calls with
      | .ok r2 => (Except.ok r2, calls + 1)
      | .error e2 =>
        if t2 = 0 then (.error (some e2), calls + 1)
        else retryGo svc t2 (calls + 1)) = _
    cases hk : k0 with
    | zero =>
      subst hk
      rw [Nat.add_zero] at hok
      rw [hok]
    | succ k1 =>
      subst hk
      rcases hfails 0 (by omega) with ⟨err, herr⟩
      rw [Nat.add_zero] at herr
      rw [herr]
      dsimp only
      have ht2 : t2 ≠ 0 := by omega
      rw [if_neg ht2]
      have hfails2 : ∀ k < k1, ∃ err2, svc (calls + 1 + k) = .error err2 := by
        intro k hk
        rcases hfails (1 + k) (by omega) with ⟨err2, herr2⟩
        refine ⟨err2, ?_⟩
        rw [Nat.add_assoc]
        exact herr2
      have hok2 : svc (calls + 1 + k1) = .ok r := by
        have h4 : calls + 1 + k1 = calls + (k1 + 1) := by omega
        rw [h4]
        exact hok
      rw [ih k1 (calls + 1) r (by omega) hfails2 hok2]
      have h5 : calls + 1 + k1 + 1 = calls + (k1 + 1) + 1 := by omega
      rw [h5]

/-- Claim C3: if the classification service fails on every attempt,
`process_batch` invokes it exactly `Config.LLM_Tries` (= 3) times — every
time with the identical request `create_user_prompt batch` — and raises
the error of the final attempt; if some attempt succeeds before the
tries are exhausted (all earlier attempts having failed), no further
invocation is made: the call count is exactly the index of the
successful attempt plus one, and the batch is updated with that
response. -/
theorem claim_C3_retry_contract {E : Type} (batch : List BRow)
    (svc : List (Nat × Option (List Nat) × Option (List Nat)) → Nat → Except E Resp) :
    (∀ e : Nat → E,
      (∀ k, svc (create_user_prompt batch) k = .error (e k)) →
      process_batch svc Config.LLM_Tries batch
        = (.error (some (e (Config.LLM_Tries - 1))), Config.LLM_Tries))
    ∧ (∀ (k0 : Nat) (resp : Resp), k0 < Config.LLM_Tries →
      (∀ k < k0, ∃ err, svc (create_user_prompt batch) k = .error err) →
      svc (create_user_prompt batch) k0 = .ok resp →
      process_batch svc Config.LLM_Tries batch
        = (.ok (processBatchMerge batch resp), k0 + 1)) := by
  constructor
  · intro e hfail
    have h := retryGo_fail (svc (create_user_prompt batch)) e Config.LLM_Tries 0
      (by decide)
      (by intro k; rw [Nat.zero_add]; exact hfail k)
    rw [Nat.zero_add] at h
    show (match retryGo (svc (create_user_prompt batch)) Config.LLM_Tries 0 with
      | (.ok resp, calls) => (Except.ok (processBatchMerge batch resp), calls)
      | (.error e2, calls) => (.error e2, calls)) = _
    rw [h]
  · intro k0 resp hk0 hfails hok
    have h := retryGo_success (svc (create_user_prompt batch)) Config.LLM_Tries
      k0 0 resp hk0
      (by intro k hk; rw [Nat.zero_add]; exact hfails k hk)
      (by rw [Nat.zero_add]; exact hok)
    rw [Nat.zero_add] at h
    show (match retryGo (svc (create_user_prompt batch)) Config.LLM_Tries 0 with
      | (.ok resp2, calls) => (Except.ok (processBatchMerge batch resp2), calls)
      | (.error e2, calls) => (.error e2, calls)) = _
    rw [h]

/-- Witness for claim C3: a service that fails on attempts 0 and 1 and
succeeds on attempt 2, and one that always fails, at a one-row batch. -/
theorem claim_C3_witness :
    (process_batch (fun _ k => (.error k : Except Nat Resp)) Config.LLM_Tries []
        = (.error (some (Config.LLM_Tries - 1)), Config.LLM_Tries))
    ∧ (process_batch
        (fun _ k => if k < 2 then (.error k : Except Nat Resp) else .ok [(0, noCat)])
        Config.LLM_Tries []
        = (.ok (processBatchMerge [] [(0, noCat)]), 2 + 1)) := by
  constructor
  · exact (claim_C3_retry_contract [] (fun _ k => .error k)).1 (fun k => k)
      (fun k => rfl)
  · exact (claim_C3_retry_contract []
      (fun _ k => if k < 2 then .error k else .ok [(0, noCat)])).2 2 [(0, noCat)]
      (by decide)
      (by intro k hk; exact ⟨k, by rw [if_pos hk]⟩)
      (by rw [if_neg (by omega)])

/-! ## Representatives, labels, parallel dispatch and the merge engine -/

/-- First-occurrence selection of
`df.groupby(["P_IVA", "cluster"]).head(1)`: keep a row when its
(supplier, cluster) pair has not been seen yet, in dataframe order. -/
def firstOcc : List (List Nat × Nat) → List CRec → List CRec
  | _, [] => []
  | seen, r :: rest =>
    if (r.piva, r.cluster) ∈ seen then firstOcc seen rest
    else r :: firstOcc ((r.piva, r.cluster) :: seen) rest

/-- The source's `DataProcessor.representatives` (the subsequent
`reset_index(drop=True)` is modeled by `withLabels`). -/
def representatives (df : List CRec) : List CRec := firstOcc [] df

/-- Attach pandas index labels `0..n-1` (`reset_index(drop=True)`). -/
def withLabels (df : List CRec) : List LRec :=
  df.enum.map (fun p => ⟨p.2, p.1⟩)

/-- In `categorize_invoices`,
`categorized_fatture['CATEGORIA'] = 'No categorizzato'`. -/
def setSentinel (reps : List LRec) : List LRec :=
  reps.map (fun r => { r with categoria := noCat })

/-- Errors `categorize_invoices` can raise: the
`assert results, "empty results after processing"` of the parallel
runner, and the completeness `ValueError("Some items were not
categorized after LLM processing.")`. -/
inductive CatErr where
  | assertEmpty : CatErr
  | notCategorized : CatErr
deriving DecidableEq, Repr

/-- Result written by the worker thread for batch `i`, if any: a worker
whose `process_batch` raises dies silently and writes nothing. -/
def workerOut {E : Type} (batches : List (List BRow))
    (pb : Nat → List BRow → Except E (List BRow)) (i : Nat) :
    Option (List BRow) :=
  match batches[i]? with
  | none => none
  | some b =>
    match pb i b with
    | .ok updated => some updated
    | .error _ => none

/-- The `results` dict as an association list: one entry per completed
worker, in completion order (`order` lists the batch indices in the
order their workers finish). -/
def runWorkers {E : Type} (batches : List (List BRow))
    (pb : Nat → List BRow → Except E (List BRow)) (order : List Nat) :
    List (Nat × List BRow) :=
  order.filterMap (fun i => (workerOut batches pb i).map (fun u => (i, u)))

/-- Last-wins dict lookup. -/
def lookupLastD {β : Type} (l : List (Nat × β)) (i : Nat) : Option β :=
  ((l.filter (fun x => decide (x.1 = i))).getLast?).map (fun x => x.2)

/-- The source's `process_batches_in_parallel`: start one thread per
batch, join them all, assert the results dict is nonempty, and
concatenate `results[i]` for `i` in sorted key order. -/
def process_batches_in_parallel {E : Type} (batches : List (List BRow))
    (pb : Nat → List BRow → Except E (List BRow)) (order : List Nat) :
    Except CatErr (List BRow) :=
  let results := runWorkers batches pb order
  if results.isEmpty then .error .assertEmpty
  else .ok ((List.insertionSort (fun a b : Nat => a ≤ b)
      ((results.map (fun x => x.1)).dedup)).flatMap
    (fun i => (lookupLastD results i).getD []))

/-- The source's `categorize_invoices`: set every category to the
sentinel, batch the not-categorized rows, dispatch the batches in
parallel, left-join the processed rows back on `(P_IVA, cluster)`
preferring the new category when present, and fail if any sentinel
remains. -/
def categorize_invoices {E : Type} (reps : List LRec)
    (pb : Nat → List BRow → Except E (List BRow)) (order : List Nat) :
    Except CatErr (List LRec) :=
  let cf := setSentinel reps
  let nc := cf.filter (fun r => decide (r.categoria = noCat))
  if nc.length = 0 then .ok cf
  else
    match process_batches_in_parallel
        (split_into_batches (nc.map toBRow) Config.BATCH_SIZE) pb order with
    | .error e => .error e
    | .ok ap =>
      let merged := cf.flatMap (fun l =>
        let ms := ap.filter (fun r =>
          decide (r.piva = some l.piva) && decide (r.cluster = some l.cluster))
        if ms.isEmpty then [l]
        else ms.map (fun r =>
          match r.categoria with
          | some c => { l with categoria := c }
          | none => l))
      if (merged.filter (fun r => decide (r.categoria = noCat))).length ≠ 0
      then .error .notCategorized
      else .ok merged

/-- A final output row: the cluster column is dropped; the category is
optional because a left join leaves NaN where no representative
matches. -/
structure FRow where
  piva : List Nat
  rs : List Nat
  descr : List Nat
  categoria : Option (List Nat)
  other : Nat
deriving DecidableEq, Repr

/-- The source's `categorize_and_return_to_jump` (after the S3 read):
cluster, select representatives, categorize them, propagate categories
onto all clustered rows by a left join on `(P_IVA, cluster)`, drop the
cluster column; any exception from `categorize_invoices` is caught and
turned into a 500 response, modeled as `.error ()`.  `svcs i` is the
classification service seen by batch `i`'s worker (prompt, attempt index
→ outcome); `order` is the thread completion order. -/
def categorize_and_return_to_jump {E : Type} (df : List Record)
    (svcs : Nat → List (Nat × Option (List Nat) × Option (List Nat)) → Nat
      → Except E Resp)
    (order : List Nat) : Except Unit (List FRow) :=
  let clustered := sequential_cluster df
  let reduced := withLabels (representatives clustered)
  match categorize_invoices reduced
      (fun i b => (process_batch (svcs i) Config.LLM_Tries b).1) order with
  | .error _ => .error ()
  | .ok repsCat =>
    .ok (clustered.flatMap (fun l =>
      let ms := repsCat.filter (fun r =>
        decide (r.piva = l.piva) && decide (r.cluster = l.cluster))
      if ms.isEmpty then [⟨l.piva, l.rs, l.descr, none, l.other⟩]
      else ms.map (fun r => ⟨l.piva, l.rs, l.descr, some r.categoria, l.other⟩)))

/-! Row-level shape of the sentinel-initialized representative frame. -/

lemma withLabels_length (df : List CRec) : (withLabels df).length = df.length := by
  unfold withLabels
  rw [List.length_map, List.enum_length]

lemma setSentinel_length (l : List LRec) : (setSentinel l).length = l.length :=
  List.length_map _ _

lemma withLabels_getElem (df : List CRec) (j : Nat)
    (h : j < (withLabels df).length) :
    (withLabels df)[j] = ⟨df.get ⟨j, by rw [withLabels_length] at h; exact h⟩, j⟩ := by
  simp only [List.get_eq_getElem]
  unfold withLabels
  rw [List.getElem_map, List.getElem_enum]

lemma setSentinel_getElem (l : List LRec) (j : Nat)
    (h : j < (setSentinel l).length) :
    (setSentinel l)[j]
      = { l.get ⟨j, by rw [setSentinel_length] at h; exact h⟩ with categoria := noCat } := by
  simp only [List.get_eq_getElem]
  unfold setSentinel
  rw [List.getElem_map]

lemma setSentinel_mem_categoria {l : List LRec} {r : LRec}
    (h : r ∈ setSentinel l) : r.categoria = noCat := by
  rcases List.mem_map.mp h with ⟨x, _, rfl⟩
  rfl

lemma setSentinel_filter_nc (l : List LRec) :
    (setSentinel l).filter (fun r => decide (r.categoria = noCat))
      = setSentinel l := by
  rw [List.filter_eq_self]
  intro r hr
  rw [decide_eq_true_iff]
  exact setSentinel_mem_categoria hr

/-! Canonical form of the parallel dispatch under any completion order. -/

lemma runWorkers_map_fst {E : Type} (batches : List (List BRow))
    (pb : Nat → List BRow → Except E (List BRow)) :
    ∀ order : List Nat,
    (runWorkers batches pb order).map (fun x => x.1)
      = order.filter (fun i => (workerOut batches pb i).isSome) := by
  intro order
  induction order with
  | nil => rfl
  | cons i rest ih =>
    unfold runWorkers at ih ⊢
    cases hw : workerOut batches pb i with
    | none =>
      rw [List.filterMap_cons_none (by rw [hw]; rfl), ih,
        List.filter_cons_of_neg (by rw [hw]; simp)]
    | some u =>
      rw [List.filterMap_cons_some (by rw [hw]; rfl), List.map_cons, ih,
        List.filter_cons_of_pos (by rw [hw]; rfl)]

lemma mem_runWorkers {E : Type} {batches : List (List BRow)}
    {pb : Nat → List BRow → Except E (List BRow)} {order : List Nat}
    {x : Nat × List BRow} :
    x ∈ runWorkers batches pb order
      ↔ ∃ i ∈ order, workerOut batches pb i = some x.2 ∧ x.1 = i := by
  unfold runWorkers
  rw [List.mem_filterMap]
  constructor
  · rintro ⟨i, hi, hfi⟩
    cases hw : workerOut batches pb i with
    | none => rw [hw] at hfi; cases hfi
    | some u =>
      rw [hw] at hfi
      simp only [Option.map_some', Option.some.injEq] at hfi
      refine ⟨i, hi, ?_, ?_⟩
      · rw [hw, ← hfi]
      · rw [← hfi]
  · rintro ⟨i, hi, hw, hx⟩
    refine ⟨i, hi, ?_⟩
    rw [hw]
    simp only [Option.map_some', Option.some.injEq]
    cases x with
    | mk a b => simp only at hw hx ⊢
                rw [hx]

lemma getLast?_of_all_eq {α : Type} {l : List α} {a : α} (hne : l ≠ [])
    (hall : ∀ x ∈ l, x = a) : l.getLast? = some a := by
  have hsome : l.getLast?.isSome = true := List.getLast?_isSome.mpr hne
  cases hg : l.getLast? with
  | none => rw [hg] at hsome; cases hsome
  | some y =>
    have : y ∈ l := List.mem_of_mem_getLast? (by rw [hg]; rfl)
    rw [hall y this]

lemma lookupLastD_runWorkers {E : Type} {batches : List (List BRow)}
    {pb : Nat → List BRow → Except E (List BRow)} {order : List Nat}
    {i : Nat} (hi : i ∈ order) (hs : (workerOut batches pb i).isSome) :
    lookupLastD (runWorkers batches pb order) i = workerOut batches pb i := by
  cases hw : workerOut batches pb i with
  | none => rw [hw] at hs; cases hs
  | some u =>
    unfold lookupLastD
    have hmem : (i, u) ∈ (runWorkers batches pb order).filter
        (fun x => decide (x.1 = i)) := by
      rw [List.mem_filter]
      refine ⟨mem_runWorkers.mpr ⟨i, hi, by rw [hw], rfl⟩, by rw [decide_eq_true_iff]⟩
    have hall : ∀ x ∈ (runWorkers batches pb order).filter
        (fun x => decide (x.1 = i)), x = (i, u) := by
      intro x hx
      rcases List.mem_filter.mp hx with ⟨hx1, hx2⟩
      rw [decide_eq_true_iff] at hx2
      rcases mem_runWorkers.mp hx1 with ⟨j, _, hwj, hxj⟩
      have hji : j = i := hxj ▸ hx2
      subst hji
      rw [hw] at hwj
      cases x with
      | mk a b =>
        simp only at hxj hwj
        simp only [Option.some.injEq] at hwj
        rw [hxj, ← hwj]
    rw [getLast?_of_all_eq (fun hnil => by rw [hnil] at hmem; cases hmem) hall]
    rfl

lemma filterMap_eq_filter_map_getD {α : Type} (f : α → Option (List BRow)) :
    ∀ l : List α, l.filterMap f
      = (l.filter (fun i => (f i).isSome)).map (fun i => (f i).getD []) := by
  intro l
  induction l with
  | nil => rfl
  | cons a rest ih =>
    cases hf : f a with
    | none =>
      rw [List.filterMap_cons_none hf, List.filter_cons_of_neg (by rw [hf]; simp), ih]
    | some u =>
      rw [List.filterMap_cons_some hf, List.filter_cons_of_pos (by rw [hf]; rfl),
        List.map_cons, ih, hf]
      rfl

/-- Under any completion order that is a permutation of the batch
indices, the parallel dispatch is deterministic: it fails with the
assertion error exactly when every worker died, and otherwise returns
the surviving processed batches concatenated in batch-index order. -/
lemma dispatch_canonical {E : Type} (batches : List (List BRow))
    (pb : Nat → List BRow → Except E (List BRow)) (order : List Nat)
    (hperm : order.Perm (List.range batches.length)) :
    process_batches_in_parallel batches pb order
      = if (List.range batches.length).all
            (fun i => (workerOut batches pb i).isNone)
        then .error .assertEmpty
        else .ok (((List.range batches.length).filterMap
            (workerOut batches pb)).flatten) := by
  have hnodup : order.Nodup := hperm.nodup_iff.mpr (List.nodup_range _)
  have hmemo : ∀ i, i ∈ order ↔ i < batches.length := by
    intro i
    rw [hperm.mem_iff, List.mem_range]
  by_cases hall : (List.range batches.length).all
      (fun i => (workerOut batches pb i).isNone)
  · rw [if_pos hall]
    have hemp : runWorkers batches pb order = [] := by
      unfold runWorkers
      rw [List.filterMap_eq_nil_iff]
      intro i hi
      have := List.all_eq_true.mp hall i (List.mem_range.mpr ((hmemo i).mp hi))
      cases hw : workerOut batches pb i with
      | none => rfl
      | some u => rw [hw] at this; cases this
    unfold process_batches_in_parallel
    rw [hemp]
    rfl
  · rw [if_neg hall]
    have hne : ¬ (runWorkers batches pb order).isEmpty = true := by
      rw [List.all_eq_true] at hall
      push_neg at hall
      rcases hall with ⟨i, hi, hsome⟩
      have hio : i ∈ order := (hmemo i).mpr (List.mem_range.mp hi)
      cases hw : workerOut batches pb i with
      | none => rw [hw] at hsome; exact absurd rfl hsome
      | some u =>
        intro hempty
        rw [List.isEmpty_iff] at hempty
        have : (i, u) ∈ runWorkers batches pb order :=
          mem_runWorkers.mpr ⟨i, hio, by rw [hw], rfl⟩
        rw [hempty] at this
        cases this
    unfold process_batches_in_parallel
    rw [if_neg hne]
    congr 1
    -- the sorted dict keys are the successful indices in ascending order
    haveI hAS : IsAntisymm Nat (fun a b : Nat => a ≤ b) :=
      ⟨fun a b h1 h2 => Nat.le_antisymm h1 h2⟩
    haveI hTO : IsTotal Nat (fun a b : Nat => a ≤ b) :=
      ⟨fun a b => Nat.le_total a b⟩
    haveI hTR : IsTrans Nat (fun a b : Nat => a ≤ b) :=
      ⟨fun a b c h1 h2 => Nat.le_trans h1 h2⟩
    have hfst := runWorkers_map_fst batches pb order
    have hknodup : ((runWorkers batches pb order).map (fun x => x.1)).Nodup := by
      rw [hfst]
      exact hnodup.filter _
    rw [hknodup.dedup]
    have hperm2 : ((runWorkers batches pb order).map (fun x => x.1)).Perm
        ((List.range batches.length).filter
          (fun i => (workerOut batches pb i).isSome)) := by
      rw [hfst]
      exact hperm.filter _
    have hkeys : List.insertionSort (fun a b : Nat => a ≤ b)
        ((runWorkers batches pb order).map (fun x => x.1))
        = (List.range batches.length).filter
            (fun i => (workerOut batches pb i).isSome) := by
      refine @List.eq_of_perm_of_sorted Nat (fun a b : Nat => a ≤ b) hAS _ _
        ((List.perm_insertionSort _ _).trans hperm2) ?_ ?_
      · exact List.sorted_insertionSort _ _
      · refine List.Pairwise.filter _ ?_
        exact (List.pairwise_lt_range _).imp (fun h => Nat.le_of_lt h)
    rw [hkeys, List.flatMap_def, filterMap_eq_filter_map_getD]
    congr 1
    refine List.map_congr_left (fun i hi => ?_)
    rcases List.mem_filter.mp hi with ⟨hir, hisome⟩
    rw [lookupLastD_runWorkers ((hmemo i).mpr (List.mem_range.mp hir)) hisome]

/-! Indexing the not-categorized frame and its batches. -/

/-- The dispatched frame: representatives with labels, categories set to
the sentinel, viewed as batch rows. -/
def ncBOf (rs : List CRec) : List BRow :=
  (setSentinel (withLabels rs)).map toBRow

def theBatches (rs : List CRec) : List (List BRow) :=
  split_into_batches (ncBOf rs) Config.BATCH_SIZE

lemma ncBOf_length (rs : List CRec) : (ncBOf rs).length = rs.length := by
  unfold ncBOf
  rw [List.length_map, setSentinel_length, withLabels_length]

lemma ncBOf_getElem (rs : List CRec) (j : Nat) (h : j < (ncBOf rs).length) :
    (ncBOf rs)[j]
      = ⟨j, some ((rs.get ⟨j, by rw [ncBOf_length] at h; exact h⟩).piva),
          some ((rs.get ⟨j, by rw [ncBOf_length] at h; exact h⟩).rs),
          some ((rs.get ⟨j, by rw [ncBOf_length] at h; exact h⟩).descr),
          some noCat,
          some ((rs.get ⟨j, by rw [ncBOf_length] at h; exact h⟩).other),
          some ((rs.get ⟨j, by rw [ncBOf_length] at h; exact h⟩).cluster)⟩ := by
  simp only [List.get_eq_getElem]
  unfold ncBOf
  rw [List.getElem_map, setSentinel_getElem, List.get_eq_getElem,
    withLabels_getElem]
  simp only [List.get_eq_getElem]
  rfl

lemma theBatches_length (rs : List CRec) :
    (theBatches rs).length
      = ((ncBOf rs).length + Config.BATCH_SIZE - 1) / Config.BATCH_SIZE := by
  unfold theBatches split_into_batches
  rw [List.length_map, List.length_range]

lemma theBatches_getElem? (rs : List CRec) (i : Nat)
    (h : i < (theBatches rs).length) :
    (theBatches rs)[i]?
      = some (((ncBOf rs).drop (i * Config.BATCH_SIZE)).take Config.BATCH_SIZE) := by
  rw [theBatches_length] at h
  show (split_into_batches (ncBOf rs) Config.BATCH_SIZE)[i]? = _
  unfold split_into_batches
  rw [List.getElem?_map, List.getElem?_range h]
  rfl

/-- Every position of the frame sits in the batch given by integer
division, at offset given by the remainder. -/
lemma chunk_getElem (l : List BRow) (bs i j : Nat)
    (h : j < ((l.drop (i * bs)).take bs).length) :
    ((l.drop (i * bs)).take bs)[j]
      = l.get ⟨i * bs + j, by
          rw [List.length_take, List.length_drop] at h
          omega⟩ := by
  simp only [List.get_eq_getElem]
  rw [List.getElem_take, List.getElem_drop]

lemma chunk_length (l : List BRow) (bs i : Nat) :
    ((l.drop (i * bs)).take bs).length = min bs (l.length - i * bs) := by
  rw [List.length_take, List.length_drop]

lemma filter_eq_singleton_of_unique {α : Type} (P : α → Bool) :
    ∀ (l : List α) (j : Nat) (hj : j < l.length),
      P (l[j]) = true →
      (∀ j2 (h2 : j2 < l.length), P (l[j2]) = true → j2 = j) →
      l.filter P = [l[j]] := by
  intro l
  induction l with
  | nil =>
    intro j hj _hP _huniq
    rw [List.length_nil] at hj
    omega
  | cons a t ih =>
    intro j hj hP huniq
    cases j with
    | zero =>
      have hPa : P a = true := hP
      rw [List.filter_cons_of_pos hPa]
      have ht : t.filter P = [] := by
        rw [List.filter_eq_nil_iff]
        intro x hx hPx
        rcases List.mem_iff_getElem.mp hx with ⟨j2, h2, rfl⟩
        have := huniq (j2 + 1) (by simpa using Nat.succ_lt_succ h2)
          (by simpa using hPx)
        omega
      rw [ht]
      rfl
    | succ j1 =>
      have hPa : ¬ P a = true := by
        intro hPa
        have := huniq 0 (by omega) hPa
        omega
      rw [List.filter_cons_of_neg hPa]
      have hj1 : j1 < t.length := by
        rw [List.length_cons] at hj
        omega
      have hgl : (a :: t)[j1 + 1] = t[j1] := by
        rw [List.getElem_cons_succ]
      rw [hgl] at hP
      have : t.filter P = [t[j1]] := by
        refine ih j1 hj1 hP ?_
        intro j2 h2 hP2
        have := huniq (j2 + 1) (by rw [List.length_cons]; omega)
          (by rw [List.getElem_cons_succ]; exact hP2)
        omega
      rw [this, hgl]

/-- Flattening a selection in which at most one entry is nonempty. -/
lemma flatten_filterMap_single {β : Type} (g : Nat → Option (List β)) :
    ∀ (l : List Nat) (i0 : Nat), i0 ∈ l → l.Nodup →
      (∀ i ∈ l, i ≠ i0 → ∀ u, g i = some u → u = []) →
      (l.filterMap g).flatten = (g i0).getD [] := by
  intro l
  induction l with
  | nil => intro i0 h; cases h
  | cons a rest ih =>
    intro i0 hmem hnodup hnil
    rcases List.nodup_cons.mp hnodup with ⟨hna, hnodup2⟩
    by_cases hai : a = i0
    · subst hai
      have hrest : (rest.filterMap g).flatten = [] := by
        rw [List.flatten_eq_nil_iff]
        intro u hu
        rcases List.mem_filterMap.mp hu with ⟨i, hi, hgi⟩
        exact hnil i (List.mem_cons_of_mem _ hi) (fun h => hna (h ▸ hi)) u hgi
      cases hg : g a with
      | none =>
        rw [List.filterMap_cons_none hg, hrest]
        rfl
      | some u =>
        rw [List.filterMap_cons_some hg, List.flatten_cons, hrest,
          List.append_nil]
        rfl
    · have hmem2 : i0 ∈ rest := by
        rcases List.mem_cons.mp hmem with heq | h2
        · exact absurd heq.symm hai
        · exact h2
      have hih := ih i0 hmem2 hnodup2
        (fun i hi hne u hgi => hnil i (List.mem_cons_of_mem _ hi) hne u hgi)
      cases hg : g a with
      | none => rw [List.filterMap_cons_none hg, hih]
      | some u =>
        rw [List.filterMap_cons_some hg, List.flatten_cons,
          hnil a (List.mem_cons_self a rest) hai u hg, List.nil_append, hih]

/-! The per-batch outcome seen through the worker, and the final
category dispatched to each representative. -/

/-- The batch processor used by `categorize_and_return_to_jump`:
`process_batch` with batch `i`'s service, discarding the ghost call
count. -/
def pbOf {E : Type}
    (svcs : Nat → List (Nat × Option (List Nat) × Option (List Nat)) → Nat
      → Except E Resp) :
    Nat → List BRow → Except (Option E) (List BRow) :=
  fun i b => (process_batch (svcs i) Config.LLM_Tries b).1

/-- Outcome of batch `i`'s retry loop. -/
def respOf {E : Type} (rs : List CRec)
    (svcs : Nat → List (Nat × Option (List Nat) × Option (List Nat)) → Nat
      → Except E Resp) (i : Nat) : Except (Option E) Resp :=
  match (theBatches rs)[i]? with
  | some b => (retryGo (svcs i (create_user_prompt b)) Config.LLM_Tries 0).1
  | none => .error none

/-- The category a representative labeled `lb` ends up with after
dispatch and the (P_IVA, cluster) merge: the last category its batch's
response assigns to its label, the sentinel if the response does not
name it or its batch failed. -/
def dcatOf {E : Type} (rs : List CRec)
    (svcs : Nat → List (Nat × Option (List Nat) × Option (List Nat)) → Nat
      → Except E Resp) (lb : Nat) : List Nat :=
  match respOf rs svcs (lb / Config.BATCH_SIZE) with
  | .ok resp => (lastCat resp lb).getD noCat
  | .error _ => noCat

lemma process_batch_fst {E : Type}
    (svc : List (Nat × Option (List Nat) × Option (List Nat)) → Nat → Except E Resp)
    (t : Nat) (b : List BRow) :
    (process_batch svc t b).1
      = match (retryGo (svc (create_user_prompt b)) t 0).1 with
        | .ok resp => .ok (processBatchMerge b resp)
        | .error e => .error e := by
  show (match retryGo (svc (create_user_prompt b)) t 0 with
    | (.ok resp, calls) => (Except.ok (processBatchMerge b resp), calls)
    | (.error e, calls) => (.error e, calls)).1 = _
  rcases h : retryGo (svc (create_user_prompt b)) t 0 with ⟨res, calls⟩
  cases res <;> rfl

lemma workerOut_pbOf {E : Type} (rs : List CRec)
    (svcs : Nat → List (Nat × Option (List Nat) × Option (List Nat)) → Nat
      → Except E Resp) (i : Nat) (h : i < (theBatches rs).length) :
    workerOut (theBatches rs) (pbOf svcs) i
      = match respOf rs svcs i with
        | .ok resp => some (processBatchMerge
            (((ncBOf rs).drop (i * Config.BATCH_SIZE)).take Config.BATCH_SIZE) resp)
        | .error _ => none := by
  unfold workerOut
  rw [theBatches_getElem? rs i h]
  dsimp only
  unfold pbOf
  rw [process_batch_fst]
  unfold respOf
  rw [theBatches_getElem? rs i h]
  dsimp only
  cases (retryGo (svcs i (create_user_prompt (((ncBOf rs).drop
      (i * Config.BATCH_SIZE)).take Config.BATCH_SIZE))) Config.LLM_Tries 0).1
    <;> rfl

lemma applyResp_piva (resp : Resp) (r : BRow) :
    (applyResp resp r).piva = r.piva := by
  unfold applyResp
  cases lastCat resp r.label <;> rfl

lemma applyResp_cluster (resp : Resp) (r : BRow) :
    (applyResp resp r).cluster = r.cluster := by
  unfold applyResp
  cases lastCat resp r.label <;> rfl

lemma extraRows_piva {resp : Resp} {labs : List Nat} {x : BRow}
    (hx : x ∈ extraRows resp labs) : x.piva = none := by
  unfold extraRows at hx
  rcases List.mem_map.mp hx with ⟨i, _, rfl⟩
  rfl

lemma div_lt_ceil (lb k bs : Nat) (hbs : 0 < bs) (h : lb < k) :
    lb / bs < (k + bs - 1) / bs := by
  have h1 : lb / bs ≤ (k - 1) / bs := Nat.div_le_div_right (by omega)
  have h2 : k + bs - 1 = (k - 1) + bs := by omega
  rw [h2, Nat.add_div_right _ hbs]
  omega

lemma key_eq_iff (rs : List CRec)
    (hkeys : (rs.map (fun r => (r.piva, r.cluster))).Nodup)
    (j j2 : Nat) (hj : j < rs.length) (hj2 : j2 < rs.length) :
    ((rs.get ⟨j, hj⟩).piva = (rs.get ⟨j2, hj2⟩).piva ∧ (rs.get ⟨j, hj⟩).cluster = (rs.get ⟨j2, hj2⟩).cluster)
      ↔ j = j2 := by
  have hlen : j < (rs.map (fun r => (r.piva, r.cluster))).length := by
    rw [List.length_map]; exact hj
  have hlen2 : j2 < (rs.map (fun r => (r.piva, r.cluster))).length := by
    rw [List.length_map]; exact hj2
  have := @List.Nodup.getElem_inj_iff _ _ hkeys _ hlen _ hlen2
  rw [List.getElem_map, List.getElem_map] at this
  rw [← this]
  constructor
  · intro h
    rw [Prod.mk.injEq]
    exact ⟨h.1, h.2⟩
  · intro h
    rw [Prod.mk.injEq] at h
    exact ⟨h.1, h.2⟩

lemma filter_processBatchMerge (P : BRow → Bool) (chunk : List BRow)
    (resp : Resp)
    (hP1 : ∀ r, P (applyResp resp r) = P r)
    (hP2 : ∀ x : BRow, x.piva = none → P x = false) :
    (processBatchMerge chunk resp).filter P
      = (chunk.filter P).map (applyResp resp) := by
  rw [processBatchMerge_structure, List.filter_append]
  have hex : (extraRows resp (chunk.map (fun r => r.label))).filter P = [] := by
    rw [List.filter_eq_nil_iff]
    intro x hx hPx
    rw [hP2 x (extraRows_piva hx)] at hPx
    cases hPx
  rw [hex, List.append_nil, List.filter_map]
  congr 1
  refine List.filter_congr (fun x _ => ?_)
  exact hP1 x

lemma P_ncB_iff (rs : List CRec)
    (hkeys : (rs.map (fun r => (r.piva, r.cluster))).Nodup)
    (lb : Nat) (hlb : lb < rs.length) (j : Nat)
    (hj : j < (ncBOf rs).length) :
    ((decide (((ncBOf rs)[j]).piva = some ((rs[lb]).piva))
      && decide (((ncBOf rs)[j]).cluster = some ((rs[lb]).cluster))) = true)
      ↔ j = lb := by
  rw [ncBOf_getElem rs j hj]
  simp only [List.get_eq_getElem]
  have hj2 : j < rs.length := by rw [ncBOf_length] at hj; exact hj
  simp only [Bool.and_eq_true, decide_eq_true_eq, Option.some.injEq]
  exact key_eq_iff rs hkeys j lb hj2 hlb

lemma chunk_filter_key (rs : List CRec)
    (hkeys : (rs.map (fun r => (r.piva, r.cluster))).Nodup)
    (lb : Nat) (hlb : lb < rs.length) (i : Nat) :
    (((ncBOf rs).drop (i * Config.BATCH_SIZE)).take Config.BATCH_SIZE).filter
        (fun r => decide (r.piva = some ((rs.get ⟨lb, hlb⟩).piva))
          && decide (r.cluster = some ((rs.get ⟨lb, hlb⟩).cluster)))
      = if i = lb / Config.BATCH_SIZE
        then [(ncBOf rs).get ⟨lb, by rw [ncBOf_length]; exact hlb⟩]
        else [] := by
  have hbs : 0 < Config.BATCH_SIZE := by decide
  have hkn : (ncBOf rs).length = rs.length := ncBOf_length rs
  by_cases hi : i = lb / Config.BATCH_SIZE
  · rw [if_pos hi]
    subst hi
    have hdm := Nat.div_add_mod lb Config.BATCH_SIZE
    have hmod := Nat.mod_lt lb hbs
    have hj0 : lb % Config.BATCH_SIZE
        < (((ncBOf rs).drop (lb / Config.BATCH_SIZE * Config.BATCH_SIZE)).take
          Config.BATCH_SIZE).length := by
      rw [chunk_length, hkn]
      have hc : Config.BATCH_SIZE * (lb / Config.BATCH_SIZE)
          = lb / Config.BATCH_SIZE * Config.BATCH_SIZE := Nat.mul_comm _ _
      omega
    have hidx : lb / Config.BATCH_SIZE * Config.BATCH_SIZE
        + lb % Config.BATCH_SIZE = lb := by
      have hc : Config.BATCH_SIZE * (lb / Config.BATCH_SIZE)
          = lb / Config.BATCH_SIZE * Config.BATCH_SIZE := Nat.mul_comm _ _
      omega
    have hchunk : ∀ (j : Nat) (hj : j < (((ncBOf rs).drop
          (lb / Config.BATCH_SIZE * Config.BATCH_SIZE)).take
          Config.BATCH_SIZE).length),
        (((ncBOf rs).drop (lb / Config.BATCH_SIZE * Config.BATCH_SIZE)).take
          Config.BATCH_SIZE)[j]
          = (ncBOf rs).get ⟨lb / Config.BATCH_SIZE * Config.BATCH_SIZE + j, by
              rw [chunk_length] at hj
              omega⟩ := by
      intro j hj
      exact chunk_getElem (ncBOf rs) Config.BATCH_SIZE _ j hj
    refine (filter_eq_singleton_of_unique _ _ (lb % Config.BATCH_SIZE) hj0 ?_ ?_).trans ?_
    · rw [hchunk]
      have hb : lb / Config.BATCH_SIZE * Config.BATCH_SIZE
          + lb % Config.BATCH_SIZE = lb := hidx
      simp only [hb]
      exact (P_ncB_iff rs hkeys lb hlb lb (by omega)).mpr rfl
    · intro j2 h2 hP2
      rw [hchunk] at hP2
      have := (P_ncB_iff rs hkeys lb hlb _ _).mp hP2
      omega
    · rw [hchunk]
      have hb : lb / Config.BATCH_SIZE * Config.BATCH_SIZE
          + lb % Config.BATCH_SIZE = lb := hidx
      simp only [hb]
  · rw [if_neg hi]
    rw [List.filter_eq_nil_iff]
    intro x hx hPx
    rcases List.mem_iff_getElem.mp hx with ⟨j, hj, rfl⟩
    rw [chunk_getElem] at hPx
    have hP := (P_ncB_iff rs hkeys lb hlb _ _).mp hPx
    have hjbs : j < Config.BATCH_SIZE := by
      rw [chunk_length] at hj
      omega
    apply hi
    rw [← hP, Nat.add_comm, Nat.add_mul_div_right _ _ hbs,
      Nat.div_eq_of_lt hjbs, Nat.zero_add]

lemma ap_filter_key {E : Type} (rs : List CRec)
    (svcs : Nat → List (Nat × Option (List Nat) × Option (List Nat)) → Nat
      → Except E Resp)
    (hkeys : (rs.map (fun r => (r.piva, r.cluster))).Nodup)
    (lb : Nat) (hlb : lb < rs.length) :
    (((List.range (theBatches rs).length).filterMap
        (workerOut (theBatches rs) (pbOf svcs))).flatten).filter
      (fun r => decide (r.piva = some ((rs.get ⟨lb, hlb⟩).piva))
        && decide (r.cluster = some ((rs.get ⟨lb, hlb⟩).cluster)))
    = match respOf rs svcs (lb / Config.BATCH_SIZE) with
      | .ok resp => [applyResp resp
          ((ncBOf rs).get ⟨lb, by rw [ncBOf_length]; exact hlb⟩)]
      | .error _ => [] := by
  have hbs : 0 < Config.BATCH_SIZE := by decide
  have hi0 : lb / Config.BATCH_SIZE < (theBatches rs).length := by
    rw [theBatches_length, ncBOf_length]
    exact div_lt_ceil lb rs.length Config.BATCH_SIZE hbs hlb
  have hP1 : ∀ (resp : Resp) (r : BRow),
      ((fun r : BRow => decide (r.piva = some ((rs.get ⟨lb, hlb⟩).piva))
        && decide (r.cluster = some ((rs.get ⟨lb, hlb⟩).cluster))) (applyResp resp r))
      = (decide (r.piva = some ((rs.get ⟨lb, hlb⟩).piva))
        && decide (r.cluster = some ((rs.get ⟨lb, hlb⟩).cluster))) := by
    intro resp r
    show (decide ((applyResp resp r).piva = some ((rs.get ⟨lb, hlb⟩).piva))
      && decide ((applyResp resp r).cluster = some ((rs.get ⟨lb, hlb⟩).cluster))) = _
    rw [applyResp_piva, applyResp_cluster]
  have hP2 : ∀ x : BRow, x.piva = none →
      (decide (x.piva = some ((rs.get ⟨lb, hlb⟩).piva))
        && decide (x.cluster = some ((rs.get ⟨lb, hlb⟩).cluster))) = false := by
    intro x hx
    rw [hx]
    simp
  rw [List.filter_flatten, List.map_filterMap]
  refine (flatten_filterMap_single _ _ (lb / Config.BATCH_SIZE)
    (List.mem_range.mpr hi0) (List.nodup_range _) ?_).trans ?_
  · intro i hi hne u hu
    have hilt : i < (theBatches rs).length := List.mem_range.mp hi
    rw [workerOut_pbOf rs svcs i hilt] at hu
    cases hr : respOf rs svcs i with
    | error e => rw [hr] at hu; cases hu
    | ok resp =>
      rw [hr] at hu
      simp only [Option.map_some', Option.some.injEq] at hu
      rw [← hu, filter_processBatchMerge _ _ _ (hP1 resp) hP2,
        chunk_filter_key rs hkeys lb hlb i, if_neg hne]
      rfl
  · rw [workerOut_pbOf rs svcs _ hi0]
    cases hr : respOf rs svcs (lb / Config.BATCH_SIZE) with
    | error e => rfl
    | ok resp =>
      simp only [Option.map_some', Option.getD_some]
      rw [filter_processBatchMerge _ _ _ (hP1 resp) hP2,
        chunk_filter_key rs hkeys lb hlb _, if_pos rfl]
      rfl

lemma flatMap_eq_map_of_singleton {α β : Type} (F : α → List β) (G : α → β) :
    ∀ l : List α, (∀ x ∈ l, F x = [G x]) → l.flatMap F = l.map G := by
  intro l
  induction l with
  | nil => intro _; rfl
  | cons a rest ih =>
    intro h
    rw [List.flatMap_cons, List.map_cons, h a (List.mem_cons_self a rest),
      ih (fun x hx => h x (List.mem_cons_of_mem _ hx))]
    rfl

lemma cfRow_label (rs : List CRec) (lb : Nat)
    (h : lb < (setSentinel (withLabels rs)).length) :
    ((setSentinel (withLabels rs))[lb]).label = lb := by
  rw [setSentinel_getElem]
  simp only [List.get_eq_getElem]
  rw [withLabels_getElem]

lemma cfRow_piva (rs : List CRec) (lb : Nat)
    (h : lb < (setSentinel (withLabels rs)).length) :
    ((setSentinel (withLabels rs))[lb]).piva
      = (rs.get ⟨lb, by rw [setSentinel_length, withLabels_length] at h; exact h⟩).piva := by
  simp only [List.get_eq_getElem]
  rw [setSentinel_getElem]
  simp only [List.get_eq_getElem]
  rw [withLabels_getElem]
  simp only [List.get_eq_getElem]

lemma cfRow_cluster (rs : List CRec) (lb : Nat)
    (h : lb < (setSentinel (withLabels rs)).length) :
    ((setSentinel (withLabels rs))[lb]).cluster
      = (rs.get ⟨lb, by rw [setSentinel_length, withLabels_length] at h; exact h⟩).cluster := by
  simp only [List.get_eq_getElem]
  rw [setSentinel_getElem]
  simp only [List.get_eq_getElem]
  rw [withLabels_getElem]
  simp only [List.get_eq_getElem]

lemma cfRow_categoria (rs : List CRec) (lb : Nat)
    (h : lb < (setSentinel (withLabels rs)).length) :
    ((setSentinel (withLabels rs))[lb]).categoria = noCat := by
  rw [setSentinel_getElem]

lemma lrec_set_categoria_self (l : LRec) (h : l.categoria = noCat) :
    ({ l with categoria := noCat } : LRec) = l := by
  obtain ⟨⟨⟨p, n, d, c, o⟩, cl⟩, lb⟩ := l
  have h2 : c = noCat := h
  subst h2
  rfl

lemma applyResp_categoria_getD (resp : Resp) (r : BRow)
    (h : r.categoria = some noCat) :
    (applyResp resp r).categoria
      = some ((lastCat resp r.label).getD noCat) := by
  unfold applyResp
  cases hl : lastCat resp r.label with
  | some cat => rfl
  | none =>
    show r.categoria = _
    rw [h]
    rfl

lemma ncB_label (rs : List CRec) (lb : Nat) (h : lb < (ncBOf rs).length) :
    ((ncBOf rs)[lb]).label = lb := by
  rw [ncBOf_getElem]

lemma ncB_categoria (rs : List CRec) (lb : Nat) (h : lb < (ncBOf rs).length) :
    ((ncBOf rs)[lb]).categoria = some noCat := by
  rw [ncBOf_getElem]

/-- `categorize_invoices` with its local lets expanded. -/
lemma categorize_invoices_eq {E : Type} (reps : List LRec)
    (pb : Nat → List BRow → Except E (List BRow)) (order : List Nat) :
    categorize_invoices reps pb order
      = if ((setSentinel reps).filter
            (fun r => decide (r.categoria = noCat))).length = 0
        then .ok (setSentinel reps)
        else match process_batches_in_parallel
            (split_into_batches (((setSentinel reps).filter
              (fun r => decide (r.categoria = noCat))).map toBRow)
              Config.BATCH_SIZE) pb order with
        | .error e => .error e
        | .ok ap =>
          if (((setSentinel reps).flatMap (fun l =>
              let ms := ap.filter (fun r =>
                decide (r.piva = some l.piva)
                  && decide (r.cluster = some l.cluster))
              if ms.isEmpty then [l]
              else ms.map (fun r => match r.categoria with
                | some c => { l with categoria := c }
                | none => l))).filter
              (fun r => decide (r.categoria = noCat))).length ≠ 0
          then .error .notCategorized
          else .ok ((setSentinel reps).flatMap (fun l =>
              let ms := ap.filter (fun r =>
                decide (r.piva = some l.piva)
                  && decide (r.cluster = some l.cluster))
              if ms.isEmpty then [l]
              else ms.map (fun r => match r.categoria with
                | some c => { l with categoria := c }
                | none => l))) := rfl

lemma merged_eq {E : Type} (rs : List CRec)
    (svcs : Nat → List (Nat × Option (List Nat) × Option (List Nat)) → Nat
      → Except E Resp)
    (hkeys : (rs.map (fun r => (r.piva, r.cluster))).Nodup) :
    (setSentinel (withLabels rs)).flatMap (fun l =>
        let ms := (((List.range (theBatches rs).length).filterMap
            (workerOut (theBatches rs) (pbOf svcs))).flatten).filter (fun r =>
          decide (r.piva = some l.piva) && decide (r.cluster = some l.cluster))
        if ms.isEmpty then [l]
        else ms.map (fun r => match r.categoria with
          | some c => { l with categoria := c }
          | none => l))
      = (setSentinel (withLabels rs)).map
          (fun l => { l with categoria := dcatOf rs svcs l.label }) := by
  refine flatMap_eq_map_of_singleton _ _ _ ?_
  intro x hx
  rcases List.mem_iff_getElem.mp hx with ⟨lb, hlb, rfl⟩
  have hlen : lb < rs.length := by
    rw [setSentinel_length, withLabels_length] at hlb
    exact hlb
  have hlbB : lb < (ncBOf rs).length := by rw [ncBOf_length]; exact hlen
  have hap := ap_filter_key rs svcs hkeys lb hlen
  rw [← cfRow_piva rs lb hlb, ← cfRow_cluster rs lb hlb] at hap
  dsimp only
  rw [hap]
  cases hresp : respOf rs svcs (lb / Config.BATCH_SIZE) with
  | error e =>
    have hd : dcatOf rs svcs ((setSentinel (withLabels rs))[lb]).label
        = noCat := by
      rw [cfRow_label rs lb hlb]
      unfold dcatOf
      rw [hresp]
    rw [hd]
    dsimp only
    rw [lrec_set_categoria_self _ (cfRow_categoria rs lb hlb)]
    rfl
  | ok resp =>
    have hd : dcatOf rs svcs ((setSentinel (withLabels rs))[lb]).label
        = (lastCat resp lb).getD noCat := by
      rw [cfRow_label rs lb hlb]
      unfold dcatOf
      rw [hresp]
    rw [hd]
    dsimp only
    simp only [List.get_eq_getElem]
    rw [show ([applyResp resp ((ncBOf rs)[lb])]).isEmpty = false from rfl,
      if_neg (show ¬ (false = true) by decide), List.map_cons, List.map_nil,
      applyResp_categoria_getD resp _ (ncB_categoria rs lb hlbB),
      ncB_label rs lb hlbB]

/-- The merged representative frame: every category rewritten to the
dispatched category of its label. -/
def mergedOf {E : Type} (rs : List CRec)
    (svcs : Nat → List (Nat × Option (List Nat) × Option (List Nat)) → Nat
      → Except E Resp) : List LRec :=
  (setSentinel (withLabels rs)).map
    (fun l => { l with categoria := dcatOf rs svcs l.label })

lemma workerOut_isSome_iff {E : Type} (rs : List CRec)
    (svcs : Nat → List (Nat × Option (List Nat) × Option (List Nat)) → Nat
      → Except E Resp) (i : Nat) (hi : i < (theBatches rs).length) :
    (workerOut (theBatches rs) (pbOf svcs) i).isSome
      ↔ ∃ resp, respOf rs svcs i = .ok resp := by
  rw [workerOut_pbOf rs svcs i hi]
  cases hr : respOf rs svcs i with
  | ok resp => simp
  | error e => simp

lemma respOf_oob {E : Type} (rs : List CRec)
    (svcs : Nat → List (Nat × Option (List Nat) × Option (List Nat)) → Nat
      → Except E Resp) (i : Nat) (hi : ¬ i < (theBatches rs).length) :
    respOf rs svcs i = .error none := by
  unfold respOf
  rw [List.getElem?_eq_none (by omega)]

/-- `categorize_invoices` on the empty representative set returns the
empty frame without dispatching. -/
lemma categorize_nil {E : Type}
    (pb : Nat → List BRow → Except E (List BRow)) (order : List Nat) :
    categorize_invoices (withLabels []) pb order = .ok [] := rfl

/-- When every batch's retry loop fails, every worker dies silently and
the dispatch hits the empty-results assertion. -/
lemma categorize_assertEmpty {E : Type} (rs : List CRec)
    (svcs : Nat → List (Nat × Option (List Nat) × Option (List Nat)) → Nat
      → Except E Resp) (order : List Nat)
    (hperm : order.Perm (List.range (theBatches rs).length))
    (hne : rs.length ≠ 0)
    (hfail : ∀ i resp, respOf rs svcs i ≠ .ok resp) :
    categorize_invoices (withLabels rs) (pbOf svcs) order
      = .error .assertEmpty := by
  rw [categorize_invoices_eq, setSentinel_filter_nc]
  rw [if_neg (by rw [setSentinel_length, withLabels_length]; exact hne)]
  have hb : split_into_batches ((setSentinel (withLabels rs)).map toBRow)
      Config.BATCH_SIZE = theBatches rs := rfl
  rw [hb, dispatch_canonical _ _ order hperm]
  rw [if_pos ?hall]
  case hall =>
    rw [List.all_eq_true]
    intro i hi
    rw [Option.isNone_iff_eq_none]
    have hilt := List.mem_range.mp hi
    rw [workerOut_pbOf rs svcs i hilt]
    cases hr : respOf rs svcs i with
    | ok resp => exact absurd hr (hfail i resp)
    | error e => rfl

/-- When at least one batch's retry loop succeeds, `categorize_invoices`
is order-independent: it builds the merged frame and fails exactly when
a sentinel category survives in it. -/
lemma categorize_canonical {E : Type} (rs : List CRec)
    (svcs : Nat → List (Nat × Option (List Nat) × Option (List Nat)) → Nat
      → Except E Resp) (order : List Nat)
    (hkeys : (rs.map (fun r => (r.piva, r.cluster))).Nodup)
    (hperm : order.Perm (List.range (theBatches rs).length))
    (hne : rs.length ≠ 0)
    (hsucc : ∃ i resp, respOf rs svcs i = .ok resp) :
    categorize_invoices (withLabels rs) (pbOf svcs) order
      = if ((mergedOf rs svcs).filter
            (fun r => decide (r.categoria = noCat))).length ≠ 0
        then .error .notCategorized
        else .ok (mergedOf rs svcs) := by
  rw [categorize_invoices_eq, setSentinel_filter_nc]
  rw [if_neg (by rw [setSentinel_length, withLabels_length]; exact hne)]
  have hb : split_into_batches ((setSentinel (withLabels rs)).map toBRow)
      Config.BATCH_SIZE = theBatches rs := rfl
  rw [hb, dispatch_canonical _ _ order hperm]
  rw [if_neg ?hnall]
  case hnall =>
    rcases hsucc with ⟨i, resp, hr⟩
    have hilt : i < (theBatches rs).length := by
      by_contra hge
      rw [respOf_oob rs svcs i hge] at hr
      cases hr
    rw [List.all_eq_true]
    push_neg
    refine ⟨i, List.mem_range.mpr hilt, ?_⟩
    rw [workerOut_pbOf rs svcs i hilt, hr]
    simp
  dsimp only
  rw [merged_eq rs svcs hkeys]
  rfl

lemma firstOcc_keys : ∀ (l : List CRec) (seen : List (List Nat × Nat)),
    ((firstOcc seen l).map (fun r => (r.piva, r.cluster))).Nodup
      ∧ ∀ x ∈ firstOcc seen l, (x.piva, x.cluster) ∉ seen := by
  intro l
  induction l with
  | nil =>
    intro seen
    exact ⟨List.nodup_nil, fun x hx => absurd hx (List.not_mem_nil x)⟩
  | cons r rest ih =>
    intro seen
    unfold firstOcc
    by_cases hm : (r.piva, r.cluster) ∈ seen
    · rw [if_pos hm]
      exact ih seen
    · rw [if_neg hm]
      obtain ⟨ihn, ihs⟩ := ih ((r.piva, r.cluster) :: seen)
      refine ⟨?_, ?_⟩
      · rw [List.map_cons, List.nodup_cons]
        refine ⟨?_, ihn⟩
        intro hmem
        rcases List.mem_map.mp hmem with ⟨x, hx, hkx⟩
        exact ihs x hx (hkx ▸ List.mem_cons_self _ _)
      · intro x hx
        rcases List.mem_cons.mp hx with rfl | hx2
        · exact hm
        · exact fun hs => ihs x hx2 (List.mem_cons_of_mem _ hs)

lemma representatives_keys_nodup (df : List CRec) :
    ((representatives df).map (fun r => (r.piva, r.cluster))).Nodup :=
  (firstOcc_keys df []).1

lemma find?_eq_head?_filter {α : Type} (P : α → Bool) :
    ∀ l : List α, l.find? P = (l.filter P).head? := by
  intro l
  induction l with
  | nil => rfl
  | cons a t ih =>
    by_cases hP : P a = true
    · rw [List.find?_cons_of_pos _ hP, List.filter_cons_of_pos hP]
      rfl
    · rw [List.find?_cons_of_neg _ (by rw [Bool.not_eq_true] at hP ⊢; exact hP),
        List.filter_cons_of_neg hP, ih]

lemma filter_key_le_one {α : Type} (key : α → List Nat × Nat) :
    ∀ (l : List α), (l.map key).Nodup → ∀ (P : α → Bool),
      (∀ x y, P x = true → P y = true → key x = key y) →
      (l.filter P).length ≤ 1 := by
  intro l
  induction l with
  | nil => intro _ P _; rw [List.filter_nil]; exact Nat.zero_le 1
  | cons a t ih =>
    intro hnd P hkey
    rw [List.map_cons, List.nodup_cons] at hnd
    by_cases hP : P a = true
    · rw [List.filter_cons_of_pos hP]
      have ht : t.filter P = [] := by
        rw [List.filter_eq_nil_iff]
        intro x hx hPx
        exact hnd.1 (List.mem_map.mpr ⟨x, hx, (hkey x a hPx hP)⟩)
      rw [ht]
      exact Nat.le_refl 1
    · rw [List.filter_cons_of_neg hP]
      exact ih hnd.2 P hkey

lemma mergedOf_length {E : Type} (rs : List CRec)
    (svcs : Nat → List (Nat × Option (List Nat) × Option (List Nat)) → Nat
      → Except E Resp) :
    (mergedOf rs svcs).length = rs.length := by
  unfold mergedOf
  rw [List.length_map, setSentinel_length, withLabels_length]

lemma mergedOf_piva {E : Type} (rs : List CRec)
    (svcs : Nat → List (Nat × Option (List Nat) × Option (List Nat)) → Nat
      → Except E Resp) (j : Nat) (h : j < (mergedOf rs svcs).length) :
    ((mergedOf rs svcs)[j]).piva
      = (rs.get ⟨j, by rw [mergedOf_length] at h; exact h⟩).piva := by
  unfold mergedOf at h ⊢
  rw [List.getElem_map]
  exact cfRow_piva rs j (by rw [List.length_map] at h; exact h)

lemma mergedOf_cluster {E : Type} (rs : List CRec)
    (svcs : Nat → List (Nat × Option (List Nat) × Option (List Nat)) → Nat
      → Except E Resp) (j : Nat) (h : j < (mergedOf rs svcs).length) :
    ((mergedOf rs svcs)[j]).cluster
      = (rs.get ⟨j, by rw [mergedOf_length] at h; exact h⟩).cluster := by
  unfold mergedOf at h ⊢
  rw [List.getElem_map]
  exact cfRow_cluster rs j (by rw [List.length_map] at h; exact h)

lemma mergedOf_label {E : Type} (rs : List CRec)
    (svcs : Nat → List (Nat × Option (List Nat) × Option (List Nat)) → Nat
      → Except E Resp) (j : Nat) (h : j < (mergedOf rs svcs).length) :
    ((mergedOf rs svcs)[j]).label = j := by
  unfold mergedOf at h ⊢
  rw [List.getElem_map]
  exact cfRow_label rs j (by rw [List.length_map] at h; exact h)

lemma mergedOf_categoria {E : Type} (rs : List CRec)
    (svcs : Nat → List (Nat × Option (List Nat) × Option (List Nat)) → Nat
      → Except E Resp) (j : Nat) (h : j < (mergedOf rs svcs).length) :
    ((mergedOf rs svcs)[j]).categoria = dcatOf rs svcs j := by
  unfold mergedOf at h ⊢
  rw [List.getElem_map]
  show dcatOf rs svcs (((setSentinel (withLabels rs)).get ⟨j, by
    rw [List.length_map] at h; exact h⟩).label) = _
  simp only [List.get_eq_getElem]
  rw [cfRow_label rs j (by rw [List.length_map] at h; exact h)]

lemma mergedOf_keys {E : Type} (rs : List CRec)
    (svcs : Nat → List (Nat × Option (List Nat) × Option (List Nat)) → Nat
      → Except E Resp) :
    (mergedOf rs svcs).map (fun r => (r.piva, r.cluster))
      = rs.map (fun r => (r.piva, r.cluster)) := by
  refine List.ext_getElem ?_ ?_
  · rw [List.length_map, List.length_map, mergedOf_length]
  · intro j h1 h2
    rw [List.getElem_map, List.getElem_map]
    have hm : j < (mergedOf rs svcs).length := by
      rw [List.length_map, mergedOf_length] at h1
      rw [mergedOf_length]
      exact h1
    show (((mergedOf rs svcs).get ⟨j, hm⟩).piva, ((mergedOf rs svcs).get ⟨j, hm⟩).cluster) = _
    simp only [List.get_eq_getElem]
    rw [mergedOf_piva rs svcs j hm, mergedOf_cluster rs svcs j hm]
    simp only [List.get_eq_getElem]

/-- The category the (P_IVA, cluster) outer join attaches to a full
record: the category of the first (unique) representative row with that
key, `none` (NaN) when no representative matches. -/
def groupCat (repsC : List LRec) (p : List Nat) (c : Nat) :
    Option (List Nat) :=
  (repsC.find? (fun r => decide (r.piva = p) && decide (r.cluster = c))).map
    (fun r => r.categoria)

lemma join_eq_map (cl : List CRec) (repsC : List LRec)
    (hnd : (repsC.map (fun r => (r.piva, r.cluster))).Nodup) :
    cl.flatMap (fun l =>
      let ms := repsC.filter (fun r =>
        decide (r.piva = l.piva) && decide (r.cluster = l.cluster))
      if ms.isEmpty then [(⟨l.piva, l.rs, l.descr, none, l.other⟩ : FRow)]
      else ms.map (fun r => ⟨l.piva, l.rs, l.descr, some r.categoria, l.other⟩))
    = cl.map (fun l =>
        ⟨l.piva, l.rs, l.descr, groupCat repsC l.piva l.cluster, l.other⟩) := by
  refine flatMap_eq_map_of_singleton _ _ _ ?_
  intro x _
  have hle := filter_key_le_one (fun r : LRec => (r.piva, r.cluster)) repsC hnd
    (fun r => decide (r.piva = x.piva) && decide (r.cluster = x.cluster))
    (fun a b ha hb => by
      rw [Bool.and_eq_true, decide_eq_true_eq, decide_eq_true_eq] at ha hb
      show (a.piva, a.cluster) = (b.piva, b.cluster)
      rw [ha.1, ha.2, hb.1, hb.2])
  have hgc : groupCat repsC x.piva x.cluster
      = ((repsC.filter (fun r =>
          decide (r.piva = x.piva) && decide (r.cluster = x.cluster))).head?).map
        (fun r => r.categoria) := by
    unfold groupCat
    rw [find?_eq_head?_filter]
  dsimp only
  cases hf : repsC.filter (fun r =>
      decide (r.piva = x.piva) && decide (r.cluster = x.cluster)) with
  | nil =>
    rw [hf] at hgc
    rw [hgc]
    rfl
  | cons r0 tl =>
    rw [hf] at hle hgc
    cases tl with
    | nil =>
      rw [hgc]
      rfl
    | cons r1 tl2 =>
      rw [List.length_cons, List.length_cons] at hle
      omega

lemma representatives_ne_nil {df : List CRec} (h : df ≠ []) :
    representatives df ≠ [] := by
  cases df with
  | nil => exact absurd rfl h
  | cons r rest =>
    unfold representatives firstOcc
    rw [if_neg (List.not_mem_nil _)]
    exact List.cons_ne_nil _ _

/-- Every successful result of `categorize_invoices` has pairwise
distinct (P_IVA, cluster) keys when the input representatives do. -/
lemma categorize_ok_keys {E : Type} (rs : List CRec)
    (svcs : Nat → List (Nat × Option (List Nat) × Option (List Nat)) → Nat
      → Except E Resp) (order : List Nat)
    (hkeys : (rs.map (fun r => (r.piva, r.cluster))).Nodup)
    (hperm : order.Perm (List.range (theBatches rs).length)) :
    ∀ out, categorize_invoices (withLabels rs) (pbOf svcs) order = .ok out →
      (out.map (fun r : LRec => (r.piva, r.cluster))).Nodup := by
  intro out hout
  by_cases hne : rs.length = 0
  · rw [List.length_eq_zero] at hne
    subst hne
    rw [categorize_nil] at hout
    cases hout
    exact List.nodup_nil
  · by_cases hsucc : ∃ i resp, respOf rs svcs i = .ok resp
    · rw [categorize_canonical rs svcs order hkeys hperm hne hsucc] at hout
      by_cases hf : ((mergedOf rs svcs).filter
          (fun r => decide (r.categoria = noCat))).length ≠ 0
      · rw [if_pos hf] at hout
        cases hout
      · rw [if_neg hf] at hout
        cases hout
        rw [mergedOf_keys]
        exact hkeys
    · push_neg at hsucc
      rw [categorize_assertEmpty rs svcs order hperm hne
        (fun i resp => hsucc i resp)] at hout
      cases hout

/-- `categorize_invoices` is independent of the thread completion
order, as long as every batch's worker completes. -/
lemma categorize_order_indep {E : Type} (rs : List CRec)
    (svcs : Nat → List (Nat × Option (List Nat) × Option (List Nat)) → Nat
      → Except E Resp) (order order2 : List Nat)
    (hkeys : (rs.map (fun r => (r.piva, r.cluster))).Nodup)
    (hperm : order.Perm (List.range (theBatches rs).length))
    (hperm2 : order2.Perm (List.range (theBatches rs).length)) :
    categorize_invoices (withLabels rs) (pbOf svcs) order
      = categorize_invoices (withLabels rs) (pbOf svcs) order2 := by
  by_cases hne : rs.length = 0
  · rw [List.length_eq_zero] at hne
    subst hne
    rw [categorize_nil, categorize_nil]
  · by_cases hsucc : ∃ i resp, respOf rs svcs i = .ok resp
    · rw [categorize_canonical rs svcs order hkeys hperm hne hsucc,
        categorize_canonical rs svcs order2 hkeys hperm2 hne hsucc]
    · push_neg at hsucc
      rw [categorize_assertEmpty rs svcs order hperm hne
          (fun i resp => hsucc i resp),
        categorize_assertEmpty rs svcs order2 hperm2 hne
          (fun i resp => hsucc i resp)]

/-- `categorize_and_return_to_jump` through the outer join: any error
becomes the 500 response, and a successful representative frame is
joined onto the clustered rows by unique-key lookup. -/
lemma catjump_eq {E : Type} (df : List Record)
    (svcs : Nat → List (Nat × Option (List Nat) × Option (List Nat)) → Nat
      → Except E Resp) (order : List Nat)
    (hperm : order.Perm (List.range
      (theBatches (representatives (sequential_cluster df))).length)) :
    categorize_and_return_to_jump df svcs order
      = match categorize_invoices
          (withLabels (representatives (sequential_cluster df)))
          (pbOf svcs) order with
        | .error _ => .error ()
        | .ok repsCat => .ok ((sequential_cluster df).map (fun l =>
            ⟨l.piva, l.rs, l.descr, groupCat repsCat l.piva l.cluster,
              l.other⟩)) := by
  show (match categorize_invoices
      (withLabels (representatives (sequential_cluster df)))
      (pbOf svcs) order with
    | .error _ => .error ()
    | .ok repsCat => .ok ((sequential_cluster df).flatMap (fun l =>
        let ms := repsCat.filter (fun r =>
          decide (r.piva = l.piva) && decide (r.cluster = l.cluster))
        if ms.isEmpty then [(⟨l.piva, l.rs, l.descr, none, l.other⟩ : FRow)]
        else ms.map (fun r =>
          ⟨l.piva, l.rs, l.descr, some r.categoria, l.other⟩))) : Except Unit _)
    = _
  cases hout : categorize_invoices
      (withLabels (representatives (sequential_cluster df)))
      (pbOf svcs) order with
  | error e => rfl
  | ok repsCat =>
    dsimp only
    rw [join_eq_map _ _ (categorize_ok_keys _ svcs order
      (representatives_keys_nodup _) hperm repsCat hout)]

lemma mergedOf_sentinel_iff {E : Type} (rs : List CRec)
    (svcs : Nat → List (Nat × Option (List Nat) × Option (List Nat)) → Nat
      → Except E Resp) :
    ((mergedOf rs svcs).filter
        (fun r => decide (r.categoria = noCat))).length ≠ 0
      ↔ ∃ lb, lb < rs.length ∧ dcatOf rs svcs lb = noCat := by
  rw [Ne, List.length_eq_zero, List.filter_eq_nil_iff]
  push_neg
  constructor
  · rintro ⟨r, hr, hP⟩
    rcases List.mem_iff_getElem.mp hr with ⟨lb, hlb, rfl⟩
    refine ⟨lb, by rw [mergedOf_length] at hlb; exact hlb, ?_⟩
    rw [← mergedOf_categoria rs svcs lb hlb]
    exact of_decide_eq_true hP
  · rintro ⟨lb, hlb, hd⟩
    have hlb2 : lb < (mergedOf rs svcs).length := by
      rw [mergedOf_length]
      exact hlb
    refine ⟨(mergedOf rs svcs)[lb], List.getElem_mem hlb2, ?_⟩
    rw [decide_eq_true_iff, mergedOf_categoria rs svcs lb hlb2]
    exact hd

/-- Claim C9: a successful response that assigns the literal sentinel
string as some representative's category is indistinguishable from an
absent classification: even with every batch dispatch succeeding,
`categorize_invoices` raises the completeness error. -/
theorem claim_C9_sentinel_category {E : Type} (rs : List CRec)
    (svcs : Nat → List (Nat × Option (List Nat) × Option (List Nat)) → Nat
      → Except E Resp) (order : List Nat)
    (hkeys : (rs.map (fun r => (r.piva, r.cluster))).Nodup)
    (hperm : order.Perm (List.range (theBatches rs).length))
    (hall : ∀ i, i < (theBatches rs).length →
      ∃ resp, respOf rs svcs i = .ok resp)
    (lb : Nat) (hlb : lb < rs.length) (resp0 : Resp)
    (hresp : respOf rs svcs (lb / Config.BATCH_SIZE) = .ok resp0)
    (hcat : lastCat resp0 lb = some noCat) :
    categorize_invoices (withLabels rs) (pbOf svcs) order
      = .error .notCategorized := by
  have hne : rs.length ≠ 0 := by omega
  have hsucc : ∃ i resp, respOf rs svcs i = .ok resp := ⟨_, resp0, hresp⟩
  rw [categorize_canonical rs svcs order hkeys hperm hne hsucc, if_pos ?_]
  rw [mergedOf_sentinel_iff]
  refine ⟨lb, hlb, ?_⟩
  unfold dcatOf
  rw [hresp]
  dsimp only
  rw [hcat]
  rfl

/-- Claim C9, instantiated: one representative, a service answering
with the sentinel as category, fails the completeness check. -/
theorem claim_C9_witness :
    categorize_invoices (withLabels [(⟨⟨[97],[10],[20],[],1⟩, 0⟩ : CRec)])
        (pbOf (fun _ _ _ => (.ok [(0, noCat)] : Except Unit Resp))) [0]
      = .error .notCategorized := by
  refine claim_C9_sentinel_category _ _ _ (by decide) (by decide) ?_ 0
    (by decide) [(0, noCat)] rfl rfl
  intro i hi
  have hi1 : i = 0 := by
    have : (theBatches [(⟨⟨[97],[10],[20],[],1⟩, 0⟩ : CRec)]).length = 1 := rfl
    omega
  subst hi1
  exact ⟨[(0, noCat)], rfl⟩

/-- Claim C1 (amended): provided at least one batch dispatch succeeds,
the categorization fails with the completeness error exactly when some
representative's dispatched category is still the sentinel; on success
every returned record carries its label's dispatched category and no
sentinel remains, and the join propagates the representative categories
onto the full clustered record set.  When every batch dispatch fails,
the operation fails with the empty-results assertion error instead of
the completeness error. -/
theorem claim_C1_completeness_policy {E : Type} (df : List Record)
    (svcs : Nat → List (Nat × Option (List Nat) × Option (List Nat)) → Nat
      → Except E Resp) (order : List Nat)
    (hperm : order.Perm (List.range
      (theBatches (representatives (sequential_cluster df))).length))
    (hdf : df ≠ []) :
    ((∃ i resp, respOf (representatives (sequential_cluster df)) svcs i
        = .ok resp) →
      (categorize_invoices (withLabels (representatives (sequential_cluster df)))
          (pbOf svcs) order = .error .notCategorized
        ↔ ∃ lb, lb < (representatives (sequential_cluster df)).length
            ∧ dcatOf (representatives (sequential_cluster df)) svcs lb = noCat))
    ∧ (∀ out, categorize_invoices
          (withLabels (representatives (sequential_cluster df)))
          (pbOf svcs) order = .ok out →
        (∀ r ∈ out,
          r.categoria = dcatOf (representatives (sequential_cluster df)) svcs r.label
          ∧ r.categoria ≠ noCat)
        ∧ categorize_and_return_to_jump df svcs order
            = .ok ((sequential_cluster df).map (fun l =>
                ⟨l.piva, l.rs, l.descr, groupCat out l.piva l.cluster,
                  l.other⟩)))
    ∧ ((∀ i resp, respOf (representatives (sequential_cluster df)) svcs i
          ≠ .ok resp) →
        categorize_invoices (withLabels (representatives (sequential_cluster df)))
          (pbOf svcs) order = .error .assertEmpty
        ∧ categorize_and_return_to_jump df svcs order = .error ()) := by
  have hkeys := representatives_keys_nodup (sequential_cluster df)
  have hcl : sequential_cluster df ≠ [] := by
    intro h0
    have hrec := sequential_cluster_records df
    rw [h0] at hrec
    have hp := sortRecords_perm df
    rw [← hrec] at hp
    exact hdf (hp.symm.eq_nil)
  have hne : (representatives (sequential_cluster df)).length ≠ 0 := by
    rw [Ne, List.length_eq_zero]
    exact representatives_ne_nil hcl
  refine ⟨?_, ?_, ?_⟩
  · intro hsucc
    rw [categorize_canonical _ svcs order hkeys hperm hne hsucc]
    by_cases hf : ((mergedOf (representatives (sequential_cluster df)) svcs).filter
        (fun r => decide (r.categoria = noCat))).length ≠ 0
    · rw [if_pos hf]
      exact ⟨fun _ => (mergedOf_sentinel_iff _ svcs).mp hf, fun _ => rfl⟩
    · rw [if_neg hf]
      constructor
      · intro h
        exact Except.noConfusion h
      · intro hex
        exact absurd ((mergedOf_sentinel_iff _ svcs).mpr hex) hf
  · intro out hout
    by_cases hsucc : ∃ i resp,
        respOf (representatives (sequential_cluster df)) svcs i = .ok resp
    · have hout2 := hout
      rw [categorize_canonical _ svcs order hkeys hperm hne hsucc] at hout2
      by_cases hf : ((mergedOf (representatives (sequential_cluster df)) svcs).filter
          (fun r => decide (r.categoria = noCat))).length ≠ 0
      · rw [if_pos hf] at hout2
        cases hout2
      · rw [if_neg hf] at hout2
        injection hout2 with hmo
        refine ⟨?_, ?_⟩
        · intro r hr
          rw [← hmo] at hr
          rcases List.mem_iff_getElem.mp hr with ⟨j, hj, rfl⟩
          have hj2 : j < (representatives (sequential_cluster df)).length := by
            rw [mergedOf_length] at hj
            exact hj
          refine ⟨?_, ?_⟩
          · rw [mergedOf_categoria _ svcs j hj, mergedOf_label _ svcs j hj]
          · rw [mergedOf_categoria _ svcs j hj]
            intro hnc
            exact (mt (mergedOf_sentinel_iff _ svcs).mpr hf) ⟨j, hj2, hnc⟩
        · rw [catjump_eq df svcs order hperm, hout]
    · push_neg at hsucc
      rw [categorize_assertEmpty _ svcs order hperm hne
        (fun i resp => hsucc i resp)] at hout
      cases hout
  · intro hfail
    have h1 := categorize_assertEmpty _ svcs order hperm hne hfail
    refine ⟨h1, ?_⟩
    rw [catjump_eq df svcs order hperm, h1]

/-- Claim C1, instantiated on a successful run: one record, a service
classifying its representative; the operation returns the record with
the assigned category and no sentinel. -/
theorem claim_C1_witness :
    categorize_and_return_to_jump [(⟨[97],[10],[20],[],1⟩ : Record)]
        (fun _ _ _ => (.ok [(0,[70])] : Except Unit Resp)) [0]
      = .ok [⟨[97],[10],[20], some [70], 1⟩] := by
  have h := claim_C1_completeness_policy [(⟨[97],[10],[20],[],1⟩ : Record)]
    (fun _ _ _ => (.ok [(0,[70])] : Except Unit Resp)) [0]
    (by decide) (by decide)
  have hj := (h.2.1 [⟨⟨⟨[97],[10],[20],[70],1⟩, 0⟩, 0⟩] rfl).2
  rw [hj]
  rfl

/-- Claim C1, counterexample to the original wording: when every batch
dispatch fails, every representative still carries the sentinel after
dispatch, yet the operation raises the empty-results assertion error,
not the completeness error. -/
theorem claim_C1_counterexample :
    categorize_invoices (withLabels [(⟨⟨[97],[10],[20],[],1⟩, 0⟩ : CRec)])
        (pbOf (fun _ _ _ => (.error () : Except Unit Resp))) [0]
      = .error .assertEmpty
    ∧ dcatOf [(⟨⟨[97],[10],[20],[],1⟩, 0⟩ : CRec)]
        (fun _ _ _ => (.error () : Except Unit Resp)) 0 = noCat
    ∧ CatErr.assertEmpty ≠ CatErr.notCategorized :=
  ⟨rfl, rfl, by decide⟩

/-- Claim C4 (amended): the final merged output is independent of the
batch completion order, and on success it holds exactly the input rows
(each once, with only the category attached and the cluster column
dropped) — but in (supplier key, raw description)-sorted order, not in
the input's relative order. -/
theorem claim_C4_merge_shape {E : Type} (df : List Record)
    (svcs : Nat → List (Nat × Option (List Nat) × Option (List Nat)) → Nat
      → Except E Resp) (order order2 : List Nat)
    (hperm : order.Perm (List.range
      (theBatches (representatives (sequential_cluster df))).length))
    (hperm2 : order2.Perm (List.range
      (theBatches (representatives (sequential_cluster df))).length)) :
    categorize_and_return_to_jump df svcs order
        = categorize_and_return_to_jump df svcs order2
    ∧ ∀ out, categorize_and_return_to_jump df svcs order = .ok out →
        out.map (fun r : FRow => (r.piva, r.rs, r.descr, r.other))
          = (sortRecords df).map (fun r : Record => (r.piva, r.rs, r.descr, r.other))
        ∧ (sortRecords df).Perm df := by
  constructor
  · rw [catjump_eq df svcs order hperm, catjump_eq df svcs order2 hperm2,
      categorize_order_indep _ svcs order order2
        (representatives_keys_nodup _) hperm hperm2]
  · intro out hout
    rw [catjump_eq df svcs order hperm] at hout
    cases hc : categorize_invoices
        (withLabels (representatives (sequential_cluster df)))
        (pbOf svcs) order with
    | error e =>
      rw [hc] at hout
      cases hout
    | ok repsCat =>
      rw [hc] at hout
      dsimp only at hout
      injection hout with hout2
      refine ⟨?_, sortRecords_perm df⟩
      rw [← hout2, List.map_map, ← sequential_cluster_records df,
        List.map_map]
      rfl

/-- Claim C4, instantiated: two records with distinct supplier keys,
both batches classified. -/
theorem claim_C4_witness :
    categorize_and_return_to_jump
        [(⟨[98],[11],[21],[],2⟩ : Record), ⟨[97],[10],[20],[],1⟩]
        (fun _ _ _ => (.ok [(0,[70]),(1,[71])] : Except Unit Resp)) [0]
      = categorize_and_return_to_jump
        [(⟨[98],[11],[21],[],2⟩ : Record), ⟨[97],[10],[20],[],1⟩]
        (fun _ _ _ => (.ok [(0,[70]),(1,[71])] : Except Unit Resp)) [0]
    ∧ [(⟨[97],[10],[20], some [70], 1⟩ : FRow),
        ⟨[98],[11],[21], some [71], 2⟩].map
          (fun r : FRow => (r.piva, r.rs, r.descr, r.other))
        = (sortRecords [(⟨[98],[11],[21],[],2⟩ : Record), ⟨[97],[10],[20],[],1⟩]).map
            (fun r : Record => (r.piva, r.rs, r.descr, r.other))
    ∧ (sortRecords [(⟨[98],[11],[21],[],2⟩ : Record), ⟨[97],[10],[20],[],1⟩]).Perm
        [(⟨[98],[11],[21],[],2⟩ : Record), ⟨[97],[10],[20],[],1⟩] := by
  have h := claim_C4_merge_shape
    [(⟨[98],[11],[21],[],2⟩ : Record), ⟨[97],[10],[20],[],1⟩]
    (fun _ _ _ => (.ok [(0,[70]),(1,[71])] : Except Unit Resp)) [0] [0]
    (by decide) (by decide)
  exact ⟨h.1, h.2 [⟨[97],[10],[20], some [70], 1⟩,
    ⟨[98],[11],[21], some [71], 2⟩] rfl⟩

/-- Claim C4, counterexample to the original wording: with the input
given in descending supplier-key order, the successful output comes
back ascending — the same row set, but not the input's relative
order. -/
theorem claim_C4_counterexample :
    categorize_and_return_to_jump
        [(⟨[98],[11],[21],[],2⟩ : Record), ⟨[97],[10],[20],[],1⟩]
        (fun _ _ _ => (.ok [(0,[70]),(1,[71])] : Except Unit Resp)) [0]
      = .ok [⟨[97],[10],[20], some [70], 1⟩, ⟨[98],[11],[21], some [71], 2⟩]
    ∧ [(⟨[97],[10],[20], some [70], 1⟩ : FRow),
        ⟨[98],[11],[21], some [71], 2⟩].map
          (fun r : FRow => (r.piva, r.rs, r.descr, r.other))
        ≠ [(⟨[98],[11],[21],[],2⟩ : Record), ⟨[97],[10],[20],[],1⟩].map
            (fun r : Record => (r.piva, r.rs, r.descr, r.other)) :=
  ⟨rfl, by decide⟩

/-! The JSON values `json.loads` can produce in `validate_response`
(`llm_client.py`).  Numbers are modeled as integers: the prompt asks for
integer ids, and `int()` applied to an integral float never fails, so
nothing in the claims depends on fractional values.  Objects are
association lists; `json.loads` keeps the last binding of a duplicated
key, so lookups take the last match. -/
inductive J where
  | num : Int → J
  | str : List Nat → J
  | bool : Bool → J
  | null : J
  | arr : List J → J
  | obj : List (List Nat × J) → J

/-- The two Python exception kinds `validate_response` can raise:
`ValueError` (the validation errors, and `int()` on a malformed string)
and `TypeError` (list indexed by a string, `int()` on None/list/dict). -/
inductive PyErr where
  | valueErr : PyErr
  | typeErr : PyErr
deriving DecidableEq, Repr

/-- Last-wins lookup in a JSON object (`json.loads` duplicate-key
semantics composed with dict indexing). -/
def lookupLastJ (kvs : List (List Nat × J)) (k : List Nat) : Option J :=
  ((kvs.filter (fun kv => decide (kv.1 = k))).getLast?).map (fun kv => kv.2)

def digitsVal : List Nat → Option Nat
  | [] => none
  | [d] => if 48 ≤ d ∧ d ≤ 57 then some (d - 48) else none
  | d :: rest =>
    if 48 ≤ d ∧ d ≤ 57 then
      match digitsVal rest with
      | some v => some ((d - 48) * 10 ^ rest.length + v)
      | none => none
    else none

/-- Python `int(s)` on a string: optional surrounding whitespace, an
optional sign, then decimal digits (digit-group underscores are not
modeled). -/
def pyIntStr (s : List Nat) : Option Int :=
  match strip s with
  | 43 :: rest => (digitsVal rest).map (fun v => (v : Int))
  | 45 :: rest => (digitsVal rest).map (fun v => -(v : Int))
  | rest => (digitsVal rest).map (fun v => (v : Int))

/-- Python `int(x)`: identity on numbers, 0/1 on booleans, string
parsing with `ValueError` on failure, `TypeError` on `None`, lists and
dicts. -/
def pyInt : J → Except PyErr Int
  | .num n => .ok n
  | .bool b => .ok (if b then 1 else 0)
  | .str s =>
    match pyIntStr s with
    | some n => .ok n
    | none => .error .valueErr
  | .null => .error .typeErr
  | .arr _ => .error .typeErr
  | .obj _ => .error .typeErr

def natDigits : Nat → Nat → List Nat
  | 0, _ => []
  | fuel + 1, n =>
    if n < 10 then [48 + n]
    else natDigits fuel (n / 10) ++ [48 + n % 10]

def intRepr (n : Int) : List Nat :=
  if n < 0 then 45 :: natDigits (n.natAbs + 1) n.natAbs
  else natDigits (n.toNat + 1) n.toNat

mutual
/-- Python `repr` of a JSON value (the rendering `str` applies inside
containers). -/
def renderJ : J → List Nat
  | .num n => intRepr n
  | .str s => [39] ++ s ++ [39]
  | .bool true => [84, 114, 117, 101]
  | .bool false => [70, 97, 108, 115, 101]
  | .null => [78, 111, 110, 101]
  | .arr xs => [91] ++ renderArr xs ++ [93]
  | .obj kvs => [123] ++ renderObj kvs ++ [125]

def renderArr : List J → List Nat
  | [] => []
  | [x] => renderJ x
  | x :: y :: rest => renderJ x ++ [44, 32] ++ renderArr (y :: rest)

def renderObj : List (List Nat × J) → List Nat
  | [] => []
  | [kv] => [39] ++ kv.1 ++ [39, 58, 32] ++ renderJ kv.2
  | kv :: kv2 :: rest =>
    [39] ++ kv.1 ++ [39, 58, 32] ++ renderJ kv.2 ++ [44, 32]
      ++ renderObj (kv2 :: rest)
end

/-- Python `str(x)`: the string itself for strings, `repr` otherwise. -/
def pyStr : J → List Nat
  | .str s => s
  | x => renderJ x

/-- The candidate keys of `validate_response`, in probe order:
"response", "data", "output", "results", "Response content". -/
def keyList : List (List Nat) :=
  [[114,101,115,112,111,110,115,101], [100,97,116,97],
   [111,117,116,112,117,116], [114,101,115,117,108,116,115],
   [82,101,115,112,111,110,115,101,32,99,111,110,116,101,110,116]]

def keyId : List Nat := [105,100]

def keyCat : List Nat := [67,65,84,69,71,79,82,73,65]

/-- Python `x == key` for an element of a list probed with `key in
result`: only an equal string compares equal to the key. -/
def isStrEq (x : J) (k : List Nat) : Bool :=
  match x with
  | .str s => decide (s = k)
  | _ => false

/-- The key-probing loop of `validate_response`:
`for key in [...]: if key in result and isinstance(result[key], list)`.
On a dict, `key in result` is key membership and `result[key]` the
last-bound value; on a list, `key in result` is element membership, and
when it holds, `result[key]` raises `TypeError` before `isinstance` is
reached.  Scalars cannot reach this loop. -/
def findData : List (List Nat) → J → Except PyErr (Option (List J))
  | [], _ => .ok none
  | k :: ks, r =>
    match r with
    | .obj kvs =>
      if (kvs.map (fun kv => kv.1)).contains k then
        match lookupLastJ kvs k with
        | some (J.arr xs) => .ok (some xs)
        | _ => findData ks r
      else findData ks r
    | .arr xs =>
      if xs.any (fun x => isStrEq x k) then .error .typeErr
      else findData ks r
    | _ => findData ks r

/-- One probe of the fallback condition: `isinstance(item, dict) and
'id' in item and 'CATEGORIA' in item`. -/
def hasBothFields (item : J) : Bool :=
  match item with
  | .obj kvs =>
    (kvs.map (fun kv => kv.1)).contains keyId
      && (kvs.map (fun kv => kv.1)).contains keyCat
  | _ => false

/-- The item loop of `validate_response`: skip non-dicts and dicts
missing either field, coerce `id` with `int()` (which can raise) and
`CATEGORIA` with `str()` (total). -/
def validateItems : List J → Except PyErr (List (Int × List Nat))
  | [] => .ok []
  | item :: rest =>
    match item with
    | .obj kvs =>
      if (kvs.map (fun kv => kv.1)).contains keyId
          && (kvs.map (fun kv => kv.1)).contains keyCat then
        match pyInt ((lookupLastJ kvs keyId).getD J.null) with
        | .ok n =>
          match validateItems rest with
          | .ok items =>
            .ok ((n, pyStr ((lookupLastJ kvs keyCat).getD J.null)) :: items)
          | .error e => .error e
        | .error e => .error e
      else validateItems rest
    | _ => validateItems rest

/-- The source's `validate_response` (`llm_client.py`), applied to the
parsed JSON payload: reject scalars, locate the response list under the
candidate keys, fall back to a bare list of well-formed dicts, validate
the items, and reject an empty result. -/
def validate_response (result : J) : Except PyErr (List (Int × List Nat)) :=
  match result with
  | .obj _ | .arr _ =>
    (match findData keyList result with
     | .error e => .error e
     | .ok (some xs) =>
       (match validateItems xs with
        | .error e => .error e
        | .ok items => if items.isEmpty then .error .valueErr else .ok items)
     | .ok none =>
       match result with
       | .arr xs =>
         if xs.all hasBothFields then
           (match validateItems xs with
            | .error e => .error e
            | .ok items => if items.isEmpty then .error .valueErr else .ok items)
         else .error .valueErr
       | _ => .error .valueErr)
  | _ => .error .valueErr

/-! Spec-side restatement of the amended claim C6 wording, to be
compared with the source translation `validate_response`.  The data
location, type errors, silent drops and coercion failures are stated
declaratively (first match, filters and maps) rather than as loops. -/

/-- Spec wording: the located response list is the first candidate key
whose (last-bound) value is a list; probing a list payload that
contains a recognized key string raises a `TypeError`. -/
def locatedSpec (result : J) : Except PyErr (Option (List J)) :=
  match result with
  | .obj kvs =>
    .ok ((keyList.filterMap (fun k =>
      match lookupLastJ kvs k with
      | some (J.arr xs) => some xs
      | _ => none)).head?)
  | .arr xs =>
    if keyList.any (fun k => xs.any (fun x => isStrEq x k)) then
      .error .typeErr
    else .ok none
  | _ => .ok none

/-- Spec wording: the identifier value of a well-formed element. -/
def itemIdVal (item : J) : Except PyErr Int :=
  match item with
  | .obj kvs => pyInt ((lookupLastJ kvs keyId).getD J.null)
  | _ => .error .typeErr

/-- Spec wording: the category value of a well-formed element. -/
def itemCatVal (item : J) : List Nat :=
  match item with
  | .obj kvs => pyStr ((lookupLastJ kvs keyCat).getD J.null)
  | _ => []

def errOf {α : Type} : Except PyErr α → PyErr
  | .error e => e
  | .ok _ => .valueErr

/-- Spec wording: elements that are not objects with both required
fields are dropped silently; of the remaining elements, the first whose
identifier does not coerce raises that coercion error, and otherwise
the (id, category) coercions are returned in order. -/
def validateItemsSpec (xs : List J) : Except PyErr (List (Int × List Nat)) :=
  match (xs.filter hasBothFields).find?
      (fun item => !(itemIdVal item).toBool) with
  | some bad => .error (errOf (itemIdVal bad))
  | none => .ok ((xs.filter hasBothFields).map
      (fun item => ((itemIdVal item).toOption.getD 0, itemCatVal item)))

/-- Spec wording of the whole validator: scalars are rejected; a
located list (or the bare-list fallback when every element is
well-formed) is validated, and an empty validated result is an
error. -/
def validateSpec (result : J) : Except PyErr (List (Int × List Nat)) :=
  match result with
  | .obj _ | .arr _ =>
    (match locatedSpec result with
     | .error e => .error e
     | .ok (some xs) =>
       (match validateItemsSpec xs with
        | .error e => .error e
        | .ok items => if items.isEmpty then .error .valueErr else .ok items)
     | .ok none =>
       match result with
       | .arr xs =>
         if xs.all hasBothFields then
           (match validateItemsSpec xs with
            | .error e => .error e
            | .ok items => if items.isEmpty then .error .valueErr else .ok items)
         else .error .valueErr
       | _ => .error .valueErr)
  | _ => .error .valueErr

lemma lookupLastJ_none (kvs : List (List Nat × J)) (k : List Nat)
    (h : (kvs.map (fun kv => kv.1)).contains k = false) :
    lookupLastJ kvs k = none := by
  unfold lookupLastJ
  have hf : kvs.filter (fun kv => decide (kv.1 = k)) = [] := by
    rw [List.filter_eq_nil_iff]
    intro kv hkv hdec
    rw [decide_eq_true_iff] at hdec
    rw [List.contains_eq_any_beq] at h
    have := List.any_eq_false.mp (by rw [h]) kv.1 (List.mem_map_of_mem _ hkv)
    rw [hdec] at this
    simp at this
  rw [hf]
  rfl

lemma lookupLastJ_some (kvs : List (List Nat × J)) (k : List Nat)
    (h : (kvs.map (fun kv => kv.1)).contains k = true) :
    ∃ v, lookupLastJ kvs k = some v := by
  unfold lookupLastJ
  rw [List.contains_eq_any_beq, List.any_eq_true] at h
  rcases h with ⟨k2, hk2, hbeq⟩
  rcases List.mem_map.mp hk2 with ⟨kv, hkv, rfl⟩
  have hkk : kv.1 = k := by
    have := eq_of_beq hbeq
    exact this.symm
  have hmem : kv ∈ kvs.filter (fun kv => decide (kv.1 = k)) := by
    rw [List.mem_filter]
    exact ⟨hkv, by rw [decide_eq_true_iff]; exact hkk⟩
  have hne : kvs.filter (fun kv => decide (kv.1 = k)) ≠ [] := by
    intro h0
    rw [h0] at hmem
    cases hmem
  have hs := List.getLast?_isSome.mpr hne
  cases hg : (kvs.filter (fun kv => decide (kv.1 = k))).getLast? with
  | none => rw [hg] at hs; cases hs
  | some kv2 => exact ⟨kv2.2, by simp [hg]⟩

lemma findData_obj (kvs : List (List Nat × J)) : ∀ ks : List (List Nat),
    findData ks (J.obj kvs)
      = .ok ((ks.filterMap (fun k =>
          match lookupLastJ kvs k with
          | some (J.arr xs) => some xs
          | _ => none)).head?) := by
  intro ks
  induction ks with
  | nil => rfl
  | cons k ks ih =>
    show (if (kvs.map (fun kv => kv.1)).contains k then
        match lookupLastJ kvs k with
        | some (J.arr xs) => Except.ok (some xs)
        | _ => findData ks (J.obj kvs)
      else findData ks (J.obj kvs)) = _
    rw [List.filterMap_cons]
    by_cases hc : (kvs.map (fun kv => kv.1)).contains k = true
    · rw [if_pos hc]
      rcases lookupLastJ_some kvs k hc with ⟨v, hv⟩
      rw [hv]
      cases v with
      | arr xs => rfl
      | num n => exact ih
      | str s => exact ih
      | bool b => exact ih
      | null => exact ih
      | obj kvs2 => exact ih
    · rw [if_neg hc, lookupLastJ_none kvs k (by
        cases hcc : (kvs.map (fun kv => kv.1)).contains k with
        | true => exact absurd hcc hc
        | false => rfl)]
      exact ih

lemma findData_arr (xs : List J) : ∀ ks : List (List Nat),
    findData ks (J.arr xs)
      = if ks.any (fun k => xs.any (fun x => isStrEq x k)) then
          .error .typeErr
        else .ok none := by
  intro ks
  induction ks with
  | nil => rfl
  | cons k ks ih =>
    show (if xs.any (fun x => isStrEq x k) then Except.error PyErr.typeErr
      else findData ks (J.arr xs)) = _
    rw [List.any_cons]
    by_cases hk : xs.any (fun x => isStrEq x k) = true
    · rw [if_pos hk, hk, Bool.true_or, if_pos rfl]
    · rw [Bool.not_eq_true] at hk
      rw [if_neg (by rw [hk]; exact Bool.false_ne_true), hk, Bool.false_or, ih]

lemma validateItemsSpec_cons_skip (item : J) (rest : List J)
    (h : hasBothFields item = false) :
    validateItemsSpec (item :: rest) = validateItemsSpec rest := by
  unfold validateItemsSpec
  rw [List.filter_cons_of_neg (by rw [h]; exact Bool.false_ne_true)]

/-- The item loop computes the declarative drop-coerce-collect
description: filter the well-formed elements, fail at the first
identifier that `int()` rejects, otherwise return the coercions in
order. -/
lemma validateItems_eq_spec : ∀ xs : List J,
    validateItems xs = validateItemsSpec xs := by
  intro xs
  induction xs with
  | nil => rfl
  | cons item rest ih =>
    cases item with
    | num n =>
      rw [validateItemsSpec_cons_skip (J.num n) rest rfl]
      show validateItems rest = _
      exact ih
    | str s =>
      rw [validateItemsSpec_cons_skip (J.str s) rest rfl]
      show validateItems rest = _
      exact ih
    | bool b =>
      rw [validateItemsSpec_cons_skip (J.bool b) rest rfl]
      show validateItems rest = _
      exact ih
    | null =>
      rw [validateItemsSpec_cons_skip J.null rest rfl]
      show validateItems rest = _
      exact ih
    | arr ys =>
      rw [validateItemsSpec_cons_skip (J.arr ys) rest rfl]
      show validateItems rest = _
      exact ih
    | obj kvs =>
      by_cases hb : hasBothFields (J.obj kvs) = true
      · have hb2 : ((kvs.map (fun kv => kv.1)).contains keyId
            && (kvs.map (fun kv => kv.1)).contains keyCat) = true := hb
        show (if (kvs.map (fun kv => kv.1)).contains keyId
            && (kvs.map (fun kv => kv.1)).contains keyCat then
            match pyInt ((lookupLastJ kvs keyId).getD J.null) with
            | .ok n =>
              (match validateItems rest with
               | .ok items =>
                 Except.ok ((n, pyStr ((lookupLastJ kvs keyCat).getD J.null))
                   :: items)
               | .error e => Except.error e)
            | .error e => Except.error e
          else validateItems rest) = _
        rw [if_pos hb2]
        unfold validateItemsSpec
        rw [List.filter_cons_of_pos hb]
        cases hid : pyInt ((lookupLastJ kvs keyId).getD J.null) with
        | error e =>
          have hpred : ((fun item => !(itemIdVal item).toBool) (J.obj kvs))
              = true := by
            show (!(pyInt ((lookupLastJ kvs keyId).getD J.null)).toBool) = true
            rw [hid]
            rfl
          have hfc : List.find? (fun item => !(itemIdVal item).toBool)
              (J.obj kvs :: rest.filter hasBothFields) = some (J.obj kvs) := by
            show (match (fun item => !(itemIdVal item).toBool) (J.obj kvs) with
              | true => some (J.obj kvs)
              | false => List.find? (fun item => !(itemIdVal item).toBool)
                  (rest.filter hasBothFields)) = some (J.obj kvs)
            rw [hpred]
          rw [hfc]
          dsimp only
          have herr : errOf (itemIdVal (J.obj kvs)) = e := by
            show errOf (pyInt ((lookupLastJ kvs keyId).getD J.null)) = e
            rw [hid]
            rfl
          rw [herr]
        | ok n =>
          have hpred : ((fun item => !(itemIdVal item).toBool) (J.obj kvs))
              = false := by
            show (!(pyInt ((lookupLastJ kvs keyId).getD J.null)).toBool) = false
            rw [hid]
            rfl
          have hfc : List.find? (fun item => !(itemIdVal item).toBool)
              (J.obj kvs :: rest.filter hasBothFields)
              = List.find? (fun item => !(itemIdVal item).toBool)
                  (rest.filter hasBothFields) := by
            show (match (fun item => !(itemIdVal item).toBool) (J.obj kvs) with
              | true => some (J.obj kvs)
              | false => List.find? (fun item => !(itemIdVal item).toBool)
                  (rest.filter hasBothFields)) = _
            rw [hpred]
          rw [hfc]
          dsimp only
          cases hf : (rest.filter hasBothFields).find?
              (fun item => !(itemIdVal item).toBool) with
          | some bad =>
            have hrest : validateItems rest
                = .error (errOf (itemIdVal bad)) := by
              rw [ih]
              unfold validateItemsSpec
              rw [hf]
            rw [hrest]
          | none =>
            have hrest : validateItems rest
                = .ok ((rest.filter hasBothFields).map
                    (fun item =>
                      ((itemIdVal item).toOption.getD 0, itemCatVal item))) := by
              rw [ih]
              unfold validateItemsSpec
              rw [hf]
            rw [hrest, List.map_cons]
            have hhead : ((itemIdVal (J.obj kvs)).toOption.getD 0,
                itemCatVal (J.obj kvs))
                = (n, pyStr ((lookupLastJ kvs keyCat).getD J.null)) := by
              show ((pyInt ((lookupLastJ kvs keyId).getD J.null)).toOption.getD 0,
                pyStr ((lookupLastJ kvs keyCat).getD J.null)) = _
              rw [hid]
              rfl
            rw [hhead]
      · have hb2 : hasBothFields (J.obj kvs) = false := by
          cases hh : hasBothFields (J.obj kvs) with
          | true => exact absurd hh hb
          | false => rfl
        rw [validateItemsSpec_cons_skip _ _ hb2]
        show (if (kvs.map (fun kv => kv.1)).contains keyId
            && (kvs.map (fun kv => kv.1)).contains keyCat then
            match pyInt ((lookupLastJ kvs keyId).getD J.null) with
            | .ok n =>
              (match validateItems rest with
               | .ok items =>
                 Except.ok ((n, pyStr ((lookupLastJ kvs keyCat).getD J.null))
                   :: items)
               | .error e => Except.error e)
            | .error e => Except.error e
          else validateItems rest) = _
        have hcond : ((kvs.map (fun kv => kv.1)).contains keyId
            && (kvs.map (fun kv => kv.1)).contains keyCat) = false := hb2
        rw [if_neg (by rw [hcond]; exact (fun h => Bool.noConfusion h))]
        exact ih

/-- Claim C6 (amended): `validate_response` equals the declarative
validator: scalars are rejected with the validation error; the response
list is the first candidate key whose value is a list, with the bare
list itself as fallback when every element is an object holding both
required fields; probing a list payload that contains a candidate key
string raises a `TypeError` instead; elements that are not objects with
both fields are dropped silently; the first surviving element whose
identifier `int()` rejects raises that coercion error (`ValueError` for
a malformed string, `TypeError` for null/list/object) rather than being
dropped; otherwise the coerced (id, category) pairs are returned, an
empty result being the validation error. -/
theorem claim_C6_validate_response (result : J) :
    validate_response result = validateSpec result := by
  cases result with
  | num n => rfl
  | str s => rfl
  | bool b => rfl
  | null => rfl
  | obj kvs =>
    show (match findData keyList (J.obj kvs) with
      | .error e => (Except.error e : Except PyErr (List (Int × List Nat)))
      | .ok (some xs) =>
        (match validateItems xs with
         | .error e => .error e
         | .ok items =>
           if items.isEmpty then .error .valueErr else .ok items)
      | .ok none => .error .valueErr)
      = (match locatedSpec (J.obj kvs) with
      | .error e => .error e
      | .ok (some xs) =>
        (match validateItemsSpec xs with
         | .error e => .error e
         | .ok items =>
           if items.isEmpty then .error .valueErr else .ok items)
      | .ok none => .error .valueErr)
    rw [findData_obj kvs keyList]
    have hloc : locatedSpec (J.obj kvs)
        = .ok ((keyList.filterMap (fun k =>
            match lookupLastJ kvs k with
            | some (J.arr xs) => some xs
            | _ => none)).head?) := rfl
    rw [hloc]
    cases hh : (keyList.filterMap (fun k =>
        match lookupLastJ kvs k with
        | some (J.arr xs) => some xs
        | _ => none)).head? with
    | none => rfl
    | some xs =>
      dsimp only
      rw [validateItems_eq_spec xs]
  | arr xs =>
    show (match findData keyList (J.arr xs) with
      | .error e => (Except.error e : Except PyErr (List (Int × List Nat)))
      | .ok (some ys) =>
        (match validateItems ys with
         | .error e => .error e
         | .ok items =>
           if items.isEmpty then .error .valueErr else .ok items)
      | .ok none =>
        if xs.all hasBothFields then
          (match validateItems xs with
           | .error e => .error e
           | .ok items =>
             if items.isEmpty then .error .valueErr else .ok items)
        else .error .valueErr)
      = (match locatedSpec (J.arr xs) with
      | .error e => .error e
      | .ok (some ys) =>
        (match validateItemsSpec ys with
         | .error e => .error e
         | .ok items =>
           if items.isEmpty then .error .valueErr else .ok items)
      | .ok none =>
        if xs.all hasBothFields then
          (match validateItemsSpec xs with
           | .error e => .error e
           | .ok items =>
             if items.isEmpty then .error .valueErr else .ok items)
        else .error .valueErr)
    rw [findData_arr xs keyList]
    have hloc : locatedSpec (J.arr xs)
        = if keyList.any (fun k => xs.any (fun x => isStrEq x k)) then
            .error .typeErr
          else .ok none := rfl
    rw [hloc]
    by_cases hk : keyList.any (fun k => xs.any (fun x => isStrEq x k)) = true
    · rw [if_pos hk]
    · rw [if_neg hk]
      dsimp only
      by_cases ha : xs.all hasBothFields = true
      · rw [if_pos ha, validateItems_eq_spec xs, if_pos ha]
      · rw [if_neg ha, if_neg ha]

/-- Claim C6, counterexamples to the original wording: a located,
nonempty response list whose single element is an object with both
required fields — which the claim says is returned with its id coerced
— raises instead, because `int("abc")` fails; and a bare-list payload
containing the string "response" raises a `TypeError` (list indexed by
a string), not the claimed validation error. -/
theorem claim_C6_counterexample :
    validate_response (J.obj [([114,101,115,112,111,110,115,101],
        J.arr [J.obj [([105,100], J.str [97,98,99]),
          ([67,65,84,69,71,79,82,73,65], J.str [120])]])])
      = .error .valueErr
    ∧ hasBothFields (J.obj [([105,100], J.str [97,98,99]),
        ([67,65,84,69,71,79,82,73,65], J.str [120])]) = true
    ∧ validate_response (J.arr [J.str [114,101,115,112,111,110,115,101]])
      = .error .typeErr
    ∧ PyErr.typeErr ≠ PyErr.valueErr :=
  ⟨rfl, rfl, rfl, by decide⟩

end Invoice